import Mathlib

/-!
Shallow embedding of the hiku query-execution engine (`hiku/engine.py`)
for checking the natural-language specification against the code.

Python's dynamically-typed values are modelled by the inductive `PyVal`;
exceptions raised by the engine are modelled by `PyErr` results in
`Except`.  Schema objects (`hiku/graph.py`) and query objects
(`hiku/query.py`) are modelled by the structures below, following the
spec's data-model section for the parts whose source is not in the
repository snapshot; every function of `hiku/engine.py` that the claims
mention is translated directly from its source.
-/

deriving instance DecidableEq for Except

namespace Hiku

mutual
/-- Model of a dynamically-typed Python value as used by the engine:
scalars, sequences (list / tuple / str), dicts keyed by strings, the
`Nothing` sentinel, `None`, `Reference(node, ident)` values and
dataclass instances (only their frozen-ness and field values matter to
the engine's hashability checks). -/
inductive PyVal where
  | nothing
  | noneV
  | bool (b : Bool)
  | int (n : Int)
  | str (s : String)
  | tuple (xs : PyVals)
  | list (xs : PyVals)
  | dict (entries : PyKVs)
  | ref (node : String) (ident : PyVal)
  | dataclassObj (frozen : Bool) (fields : PyVals)
deriving DecidableEq

/-- A list of Python values (spelled out so that equality is derivable). -/
inductive PyVals where
  | nil
  | cons (x : PyVal) (xs : PyVals)
deriving DecidableEq

/-- A string-keyed Python dict, as an association list. -/
inductive PyKVs where
  | nil
  | cons (k : String) (v : PyVal) (kvs : PyKVs)
deriving DecidableEq
end

/-- View a `PyVals` as an ordinary Lean list. -/
def PyVals.toList : PyVals → List PyVal
  | .nil => []
  | .cons x xs => x :: xs.toList

/-- Build a `PyVals` from an ordinary Lean list. -/
def PyVals.ofList : List PyVal → PyVals
  | [] => .nil
  | x :: xs => .cons x (PyVals.ofList xs)

/-- View a `PyKVs` dict as an association list. -/
def PyKVs.toList : PyKVs → List (String × PyVal)
  | .nil => []
  | .cons k v kvs => (k, v) :: kvs.toList

/-- Build a `PyKVs` dict from an association list. -/
def PyKVs.ofList : List (String × PyVal) → PyKVs
  | [] => .nil
  | (k, v) :: kvs => .cons k v (PyKVs.ofList kvs)

/-- Exceptions raised by `hiku/engine.py`, modelled structurally: the
source raises `TypeError` with formatted messages; we keep the data the
message is built from.  `fieldShape` / `linkShape` are the
`ResolverShape`-style errors of `_check_store_fields` /
`_check_store_links`; `requiredOption` is the `MissingRequiredOption`
error of `_yield_options`; `nullNonOptional` comes from
`link_result_to_ids`; `indexError` / `recursionError` model crashes of
`_hashable_hint` (empty-sequence indexing / unbounded single-character
string descent); `assertError` models failing `assert` statements. -/
inductive PyErr where
  | requiredOption (name : String)
  | fieldShape (nodeName : String) (fieldNames : List String)
      (expected : String) (returned : PyVal)
  | linkShape (nodeName : String) (linkName : String)
      (expected : String) (returned : PyVal) (hint : String)
  | nullNonOptional
  | keyError (key : String)
  | indexError
  | recursionError
  | assertError
  | notSequence
  | notImplemented
  | attrError
deriving DecidableEq

/-- `isinstance(x, collections.abc.Sequence)`: lists, tuples and strings
are Sequences; dicts, scalars and other objects are not. -/
def PyVal.isSequence : PyVal → Bool
  | .tuple _ => true
  | .list _ => true
  | .str _ => true
  | _ => false

/-- The elements a Python Sequence yields when iterated; a string yields
its one-character substrings. -/
def PyVal.seqElems : PyVal → Option (List PyVal)
  | .tuple xs => some xs.toList
  | .list xs => some xs.toList
  | .str s => some (s.toList.map (fun c => .str (String.mk [c])))
  | _ => none

mutual
/-- `_is_hashable` of `hiku/engine.py`: `isinstance(obj, Hashable)` plus
an actual `hash(obj)` call guarded by try/except.  Lists and dicts are
unhashable; a tuple hashes iff all its items hash; a dataclass instance
hashes iff it is frozen (a non-frozen dataclass has `__hash__ = None`)
and its fields hash. -/
def PyVal.isHashable : PyVal → Bool
  | .list _ => false
  | .dict _ => false
  | .tuple xs => PyVal.allHashable xs
  | .dataclassObj frozen fields => frozen && PyVal.allHashable fields
  | .ref _ ident => PyVal.isHashable ident
  | _ => true

def PyVal.allHashable : PyVals → Bool
  | .nil => true
  | .cons x xs => PyVal.isHashable x && PyVal.allHashable xs
end

/-! ## Schema model (`hiku/graph.py`, per spec section 3)

The schema sources are not in the repository snapshot; the structures
below follow the spec's data model.  Following the spec's design note,
resolver callables are modelled by their identity (`Nat`): batching in
the engine compares resolvers by function identity only. -/

/-- Link cardinality: `Maybe`, `One` or `Many`. -/
inductive LinkType where
  | maybe
  | one
  | many
deriving DecidableEq

/-- A schema `Option`: name and default value; a default of `Nothing`
marks a required option. -/
structure GOption where
  name : String
  default : PyVal
deriving DecidableEq

/-- A schema `Field`: name, resolver identity, the value of the
resolver's `__subquery__` attribute when it has one (the engine batches
on `getattr(func, "__subquery__", func)`), and declared options. -/
structure GField where
  name : String
  func : Nat
  subqueryAttr : Option Nat
  options : List GOption
deriving DecidableEq

/-- A schema `Link`: name, resolver identity, target node name,
cardinality, optional `requires` field name and declared options. -/
structure GLink where
  name : String
  func : Nat
  node : String
  typeEnum : LinkType
  requires : Option String
  options : List GOption
deriving DecidableEq

/-- An entry of a schema node's `fields_map`: a `Field` or a `Link`. -/
inductive NodeMember where
  | field (f : GField)
  | link (l : GLink)
deriving DecidableEq

/-- The name under which a member is stored in `fields_map`. -/
def NodeMember.name : NodeMember → String
  | .field f => f.name
  | .link l => l.name

/-- The declared options of a member. -/
def NodeMember.options : NodeMember → List GOption
  | .field f => f.options
  | .link l => l.options

/-- `getattr(graph_obj.func, "__subquery__", graph_obj.func)`: the
callable identity the engine batches a member's resolver under. -/
def NodeMember.effFunc : NodeMember → Nat
  | .field f => f.subqueryAttr.getD f.func
  | .link l => l.func

/-- A schema `Node`: `Root`'s name is `none`; members are indexed by
name through `fieldsMap`. -/
structure GNode where
  name : Option String
  members : List NodeMember
deriving DecidableEq

/-- `node.fields_map[name]` (first member with that name, if any). -/
def GNode.fieldsMap (n : GNode) (key : String) : Option NodeMember :=
  n.members.find? (fun m => m.name == key)

/-- A schema `Graph`: named nodes plus the distinguished root. -/
structure Graph where
  nodes : List GNode
  root : GNode
deriving DecidableEq

/-- `graph.nodes_map[name]`. -/
def Graph.nodesMap (g : Graph) (key : String) : Option GNode :=
  g.nodes.find? (fun n => n.name == some key)

/-! ## Query model (`hiku/query.py`, per spec section 3) -/

mutual
/-- A query `Node`: ordered list of fields/links plus the `ordered`
flag forcing sequential execution of siblings. -/
inductive QNode where
  | mk (ordered : Bool) (items : QItems)
deriving DecidableEq

/-- The items of a query node (spelled out for derivable equality). -/
inductive QItems where
  | nil
  | cons (i : QItem) (rest : QItems)
deriving DecidableEq

/-- A query `Field` or `Link`: name, options map (a Python dict or
`None`), the `index_key` storage slot, and for links the nested query
node and the ttl of a `@cached` directive when present (the only
directive material to the engine). -/
inductive QItem where
  | qfield (name : String) (options : Option (List (String × PyVal)))
      (indexKey : String)
  | qlink (name : String) (options : Option (List (String × PyVal)))
      (indexKey : String) (node : QNode) (cachedTtl : Option Nat)
deriving DecidableEq
end

/-- View `QItems` as an ordinary Lean list. -/
def QItems.toList : QItems → List QItem
  | .nil => []
  | .cons i rest => i :: rest.toList

/-- Build `QItems` from an ordinary Lean list. -/
def QItems.ofList : List QItem → QItems
  | [] => .nil
  | i :: rest => .cons i (QItems.ofList rest)

/-- A query item's name. -/
def QItem.name : QItem → String
  | .qfield n _ _ => n
  | .qlink n _ _ _ _ => n

/-- A query item's options map. -/
def QItem.options : QItem → Option (List (String × PyVal))
  | .qfield _ o _ => o
  | .qlink _ o _ _ _ => o

/-- A query item's `index_key`. -/
def QItem.indexKey : QItem → String
  | .qfield _ _ ik => ik
  | .qlink _ _ ik _ _ => ik

/-- The nested query node of a query link (a bare node for fields;
only ever read for links). -/
def QItem.qnode : QItem → QNode
  | .qfield _ _ _ => .mk false .nil
  | .qlink _ _ _ n _ => n

/-- `"cached" in query_link.directives_map`, with the directive's ttl. -/
def QItem.cachedTtl : QItem → Option Nat
  | .qfield _ _ _ => none
  | .qlink _ _ _ _ t => t

/-- The items list of a query node. -/
def QNode.items : QNode → List QItem
  | .mk _ items => items.toList

/-- The `ordered` flag of a query node. -/
def QNode.ordered : QNode → Bool
  | .mk o _ => o

/-! ## Option initialization (`hiku/engine.py` 64-112) -/

/-- The loop body of `_yield_options`: for each declared option take the
queried value, falling back to the option's default; a resulting
`Nothing` raises the `MissingRequiredOption` error.  `opts` is
`query_obj.options or {}`. -/
def yield_options_go (opts : List (String × PyVal)) :
    List GOption → Except PyErr (List (String × PyVal))
  | [] => .ok []
  | o :: rest =>
    let value := (opts.lookup o.name).getD o.default
    if value = PyVal.nothing then
      .error (.requiredOption o.name)
    else
      match yield_options_go opts rest with
      | .ok tail => .ok ((o.name, value) :: tail)
      | .error e => .error e

/-- `_yield_options(graph_obj, query_obj)` followed by `dict(...)` as in
`_get_options`; the two object arguments enter only through the schema
object's declared options and the query object's options map, which we
pass directly. -/
def get_options (graphOptions : List GOption)
    (queryOptions : Option (List (String × PyVal))) :
    Except PyErr (List (String × PyVal)) :=
  yield_options_go (queryOptions.getD []) graphOptions

/-! ## Cache keys (`hiku/engine.py` 194-207, 573-587) -/

mutual
/-- `HashVisitor` on a single query field/link: the byte chunks fed to
the hasher, in visit order.  A field feeds its `index_key`; a link
feeds its `index_key` and then visits its node. -/
def hashVisitItem : QItem → List String
  | .qfield _ _ ik => [ik]
  | .qlink _ _ ik node _ => ik :: hashVisitNode node

/-- `HashVisitor.visit_node`: visit each item in order. -/
def hashVisitNode : QNode → List String
  | .mk _ items => hashVisitItems items

def hashVisitItems : QItems → List String
  | .nil => []
  | .cons i rest => hashVisitItem i ++ hashVisitItems rest
end

/-- The engine-wide cache version tag. -/
def CACHE_VERSION : String := "1"

/-- `get_query_hash(query_link, required_id)`.  The SHA1 construction
and Python's builtin `hash` are external pure functions, passed in as
`sha1` (digest of the fed chunk sequence) and `pyhash`; the function
feeds the hasher the visitor's chunks, then `str(hash(required_id))`,
then `CACHE_VERSION`. -/
def get_query_hash (sha1 : List String → String) (pyhash : PyVal → Int)
    (queryLink : QItem) (requiredId : PyVal) : String :=
  sha1 (hashVisitItem queryLink ++ [toString (pyhash requiredId), CACHE_VERSION])

/-! ## Index (`hiku/result.py`, per spec sections 3 and 4.2)

A two-level map `node_name → id → (index_key → value)` plus a root
record, modelled as association lists with Python-dict update semantics
(assignment keeps the entry's position; a fresh key is appended). -/

/-- Python dict assignment `d[k] = v` on an association list. -/
def setAssoc {α β : Type} [DecidableEq α] (l : List (α × β)) (k : α) (v : β) :
    List (α × β) :=
  match l with
  | [] => [(k, v)]
  | (k', v') :: rest =>
    if k' = k then (k', v) :: rest else (k', v') :: setAssoc rest k v

/-- Python dict `d.update(kvs)` on an association list. -/
def updateAssoc {α β : Type} [DecidableEq α] (l : List (α × β))
    (kvs : List (α × β)) : List (α × β) :=
  kvs.foldl (fun acc kv => setAssoc acc kv.1 kv.2) l

/-- The normalized result store. -/
structure Index where
  nodes : List (String × List (PyVal × List (String × PyVal)))
  root : List (String × PyVal)
deriving DecidableEq

/-- `index[node_name]` with defaultdict auto-insertion on read. -/
def Index.getNode (idx : Index) (nm : String) :
    List (PyVal × List (String × PyVal)) :=
  ((idx.nodes.lookup nm).getD [])

/-- `index[node_name][i]` with defaultdict auto-insertion on read. -/
def Index.getRecord (idx : Index) (nm : String) (i : PyVal) :
    List (String × PyVal) :=
  (((idx.getNode nm).lookup i).getD [])

/-- Read one `(node, id, index_key)` cell. -/
def Index.lookupCell (idx : Index) (nm : String) (i : PyVal) (key : String) :
    Option PyVal :=
  (idx.getRecord nm i).lookup key

/-- Replace the record of an id (`index[nm][i] = record`). -/
def Index.setRecord (idx : Index) (nm : String) (i : PyVal)
    (record : List (String × PyVal)) : Index :=
  { idx with nodes := setAssoc idx.nodes nm (setAssoc (idx.getNode nm) i record) }

/-- Write one cell (`index[nm][i][key] = v`). -/
def Index.setCell (idx : Index) (nm : String) (i : PyVal) (key : String)
    (v : PyVal) : Index :=
  idx.setRecord nm i (setAssoc (idx.getRecord nm i) key v)

/-- Read a root cell. -/
def Index.lookupRoot (idx : Index) (key : String) : Option PyVal :=
  idx.root.lookup key

/-- Write a root cell (`index.root[key] = v`). -/
def Index.setRootCell (idx : Index) (key : String) (v : PyVal) : Index :=
  { idx with root := setAssoc idx.root key v }

/-! ## Shape validation and storage of field results
(`hiku/engine.py` 210-236, 287-311) -/

/-- The `expected` text of `_check_store_fields` at a named node. -/
def fieldShapeExpected (nIds nFields : Nat) : String :=
  s!"list (len: {nIds}) of lists (len: {nFields})"

/-- The `expected` text of `_check_store_fields` at `Root`. -/
def rootFieldShapeExpected (nFields : Nat) : String :=
  s!"list (len: {nFields})"

/-- The `expected` text of `_check_store_links` on a wrong-length
Maybe/One result. -/
def linkLenExpected (nIds : Nat) : String :=
  s!"list (len: {nIds})"

/-- The `expected` text of `_check_store_links` on an unhashable Many
result. -/
def linkManyHashExpected (nIds : Nat) : String :=
  s!"list (len: {nIds}) of lists of hashable objects"

/-- The `expected` text of `_check_store_links` on a wrong-shape Many
result. -/
def linkManyExpected (nIds : Nat) : String :=
  s!"list (len: {nIds}) of lists"

/-- `_check_store_fields(node, fields, ids, result)`: at a named node the
result must be a sequence of `len(ids)` rows, each a sequence of
`len(fields)` values; at `Root` a single sequence of `len(fields)`
values; otherwise a `TypeError` carrying the expected shape and the
returned value is raised. -/
def check_store_fields (node : GNode) (fields : List QItem)
    (ids : Option (List PyVal)) (result : PyVal) : Except PyErr Unit :=
  match node.name with
  | some nm =>
    match ids with
    | none => .error .assertError
    | some ids =>
      let ok := match result.seqElems with
        | some rows =>
          rows.length == ids.length &&
            rows.all (fun r => match r.seqElems with
              | some cells => cells.length == fields.length
              | none => false)
        | none => false
      if ok then .ok ()
      else
        .error (.fieldShape nm (fields.map QItem.name)
          (fieldShapeExpected ids.length fields.length) result)
  | none =>
    let ok := match result.seqElems with
      | some cells => cells.length == fields.length
      | none => false
    if ok then .ok ()
    else
      .error (.fieldShape "__root__" (fields.map QItem.name)
        (rootFieldShapeExpected fields.length) result)

/-- `store_fields(index, node, query_fields, ids, query_result)` minus
the generator materialization (generators are not modelled): validate
the shape, then at a named node update each id's record with the row
zipped against the fields' `index_key`s, or update the root record at
`Root`. -/
def store_fields (idx : Index) (node : GNode) (queryFields : List QItem)
    (ids : Option (List PyVal)) (queryResult : PyVal) : Except PyErr Index :=
  match check_store_fields node queryFields ids queryResult with
  | .error e => .error e
  | .ok _ =>
  let names := queryFields.map QItem.indexKey
  match node.name with
  | some nm =>
    match ids with
    | none => .error .assertError
    | some ids =>
      let rows := queryResult.seqElems.getD []
      .ok ((ids.zip rows).foldl
        (fun acc iRow =>
          acc.setRecord nm iRow.1
            (updateAssoc (acc.getRecord nm iRow.1)
              (names.zip (iRow.2.seqElems.getD []))))
        idx)
  | none =>
    match ids with
    | some _ => .error .assertError
    | none =>
      let cells := queryResult.seqElems.getD []
      .ok { idx with root := updateAssoc idx.root (names.zip cells) }

/-! ## Link requirements, references and storage of link results
(`hiku/engine.py` 314-454) -/

/-- The list comprehension of `link_reqs`:
`[node_idx[i][link.requires] for i in ids]`; a missing cell raises
`KeyError`. -/
def req_values (idx : Index) (nm req : String) :
    List PyVal → Except PyErr (List PyVal)
  | [] => .ok []
  | i :: rest =>
    match idx.lookupCell nm i req with
    | some v =>
      match req_values idx nm req rest with
      | .ok tail => .ok (v :: tail)
      | .error e => .error e
    | none => .error (.keyError req)

/-- `link_reqs(index, node, link, ids)`: at a named node the list of the
`link.requires` cell of every id (a missing cell is a `KeyError`); at
`Root` the root cell itself. -/
def link_reqs (idx : Index) (node : GNode) (link : GLink)
    (ids : Option (List PyVal)) : Except PyErr PyVal :=
  let req := link.requires.getD ""
  match node.name with
  | some nm =>
    match ids with
    | none => .error .assertError
    | some ids =>
      match req_values idx nm req ids with
      | .ok vals => .ok (.list (.ofList vals))
      | .error e => .error e
  | none =>
    match idx.lookupRoot req with
    | some v => .ok v
    | none => .error (.keyError req)

/-- `link_ref_maybe`: `Nothing` becomes `None`, otherwise a Reference. -/
def link_ref_maybe (graphLink : GLink) (ident : PyVal) : PyVal :=
  if ident = .nothing then .noneV else .ref graphLink.node ident

/-- `link_ref_one`: asserts the ident is not `Nothing`. -/
def link_ref_one (graphLink : GLink) (ident : PyVal) : Except PyErr PyVal :=
  if ident = .nothing then .error .assertError
  else .ok (.ref graphLink.node ident)

/-- `link_ref_many`: one Reference per ident. -/
def link_ref_many (graphLink : GLink) (idents : PyVal) : Except PyErr PyVal :=
  match idents.seqElems with
  | some xs => .ok (.list (.ofList (xs.map (fun i => .ref graphLink.node i))))
  | none => .error .notSequence

/-- `_LINK_REF_MAKER` dispatch on the link's cardinality. -/
def link_ref_maker (t : LinkType) (graphLink : GLink) (v : PyVal) :
    Except PyErr PyVal :=
  match t with
  | .maybe => .ok (link_ref_maybe graphLink v)
  | .one => link_ref_one graphLink v
  | .many => link_ref_many graphLink v

def HASH_HINT : String :=
  "\nHint: Consider adding __hash__ method or use hashable type."

def DATACLASS_HINT : String :=
  "\nHint: Use @dataclass(frozen=True) to make object hashable."

/-- `_hashable_hint(obj)`: descend into `obj[0]` while the value is a
Sequence, then suggest the frozen-dataclass hint for a non-frozen
dataclass and the generic `__hash__` hint otherwise.  The descent
crashes on an empty sequence (`obj[0]` raises `IndexError`) and loops
forever on a string (a one-character string is its own first element),
which Python reports as a `RecursionError`. -/
def hashable_hint : PyVal → Except PyErr String
  | .tuple .nil => .error .indexError
  | .tuple (.cons x _) => hashable_hint x
  | .list .nil => .error .indexError
  | .list (.cons x _) => hashable_hint x
  | .str s => .error (if s.isEmpty then .indexError else .recursionError)
  | .dataclassObj frozen _ => if frozen then .ok HASH_HINT else .ok DATACLASS_HINT
  | _ => .ok HASH_HINT

/-- `_check_store_links(node, link, ids, result)`: validate a link
resolver's result against the link's cardinality, at a named node with
`requires` against `len(ids)`, raising the `TypeError` whose expected
shape, returned value and hashability hint we model structurally. -/
def check_store_links (node : GNode) (link : GLink) (ids : Option (List PyVal))
    (result : PyVal) : Except PyErr Unit :=
  match node.name, link.requires with
  | some nm, some _ =>
    (match ids with
    | none => .error .assertError
    | some ids =>
      match link.typeEnum with
      | .maybe | .one =>
        match result.seqElems with
        | some xs =>
          if xs.length = ids.length then
            if xs.all PyVal.isHashable then .ok ()
            else
              match hashable_hint result with
              | .ok hint =>
                .error (.linkShape nm link.name "list of hashable objects"
                  result hint)
              | .error e => .error e
          else
            .error (.linkShape nm link.name (linkLenExpected ids.length)
              result "")
        | none =>
          .error (.linkShape nm link.name (linkLenExpected ids.length)
            result "")
      | .many =>
        match result.seqElems with
        | some xs =>
          if xs.length = ids.length && xs.all PyVal.isSequence then
            if xs.all (fun r => (r.seqElems.getD []).all PyVal.isHashable)
            then .ok ()
            else
              match hashable_hint result with
              | .ok hint =>
                .error (.linkShape nm link.name
                  (linkManyHashExpected ids.length) result hint)
              | .error e => .error e
          else
            .error (.linkShape nm link.name (linkManyExpected ids.length)
              result "")
        | none =>
          .error (.linkShape nm link.name (linkManyExpected ids.length)
            result ""))
  | _, _ =>
    let nodeName := node.name.getD "__root__"
    match link.typeEnum with
    | .maybe | .one =>
      if result.isHashable then .ok ()
      else
        match hashable_hint result with
        | .ok hint =>
          .error (.linkShape nodeName link.name "hashable object" result hint)
        | .error e => .error e
    | .many =>
      match result.seqElems with
      | some xs =>
        if xs.all PyVal.isHashable then .ok ()
        else
          match hashable_hint result with
          | .ok hint =>
            .error (.linkShape nodeName link.name "list of hashable objects"
              result hint)
          | .error e => .error e
      | none => .error (.linkShape nodeName link.name "list" result "")

/-- `store_links(index, node, graph_link, query_link, ids, query_result)`:
validate, then write `_LINK_REF_MAKER[cardinality](link, res)` under the
query link's `index_key`.  At a named node a link without `requires`
pairs every id with the single resolver result
(`repeat(query_result, len(ids))`); with `requires` the ids are zipped
against the result's elements.  At `Root` the root cell is written.
`store_links_go` is the write loop
(`for i, res in zip(ids, query_result): ...`). -/
def store_links_go (nm : String) (t : LinkType) (graphLink : GLink)
    (key : String) : List (PyVal × PyVal) → Index → Except PyErr Index
  | [], idx => .ok idx
  | (i, res) :: rest, idx =>
    match link_ref_maker t graphLink res with
    | .ok v => store_links_go nm t graphLink key rest (idx.setCell nm i key v)
    | .error e => .error e

def store_links (idx : Index) (node : GNode) (graphLink : GLink)
    (queryLink : QItem) (ids : Option (List PyVal)) (queryResult : PyVal) :
    Except PyErr Index :=
  match check_store_links node graphLink ids queryResult with
  | .error e => .error e
  | .ok _ =>
  match node.name with
  | some nm =>
    match ids with
    | none => .error .assertError
    | some ids =>
      let pairs : List (PyVal × PyVal) :=
        if graphLink.requires = none then ids.map (fun i => (i, queryResult))
        else ids.zip (queryResult.seqElems.getD [])
      store_links_go nm graphLink.typeEnum graphLink queryLink.indexKey
        pairs idx
  | none =>
    match link_ref_maker graphLink.typeEnum graphLink queryResult with
    | .ok v => .ok (idx.setRootCell queryLink.indexKey v)
    | .error e => .error e

/-! ## Reduction of link results to target ids and `process_link`
(`hiku/engine.py` 457-481, 718-736) -/

/-- The element sequences of the members of a `Many` result, for
`chain.from_iterable` (a non-iterable member raises `TypeError`). -/
def inner_seqs : List PyVal → Except PyErr (List (List PyVal))
  | [] => .ok []
  | r :: rest =>
    match r.seqElems with
    | some ys =>
      match inner_seqs rest with
      | .ok tail => .ok (ys :: tail)
      | .error e => .error e
    | none => .error PyErr.notSequence

/-- `link_result_to_ids(from_list, link_type, result)`: reduce a link
resolver's result to the flat list of target ids. -/
def link_result_to_ids (fromList : Bool) (linkType : LinkType)
    (result : PyVal) : Except PyErr (List PyVal) :=
  if fromList then
    match result.seqElems with
    | none => .error .notSequence
    | some xs =>
      match linkType with
      | .maybe => .ok (xs.filter (fun i => !(i == PyVal.nothing)))
      | .one =>
        if xs.any (fun i => i == PyVal.nothing) then .error .nullNonOptional
        else .ok xs
      | .many =>
        match inner_seqs xs with
        | .ok inner => .ok inner.flatten
        | .error e => .error e
  else
    match linkType with
    | .maybe => if result = .nothing then .ok [] else .ok [result]
    | .one => if result = .nothing then .error .nullNonOptional else .ok [result]
    | .many =>
      match result.seqElems with
      | some xs => .ok xs
      | none => .error .notSequence

/-- `Query.process_link`: store the link result in the index, reduce it
to target ids, and recurse into the target node iff the id list is
non-empty.  The recursive `process_node` call is reified as the
returned `some (target_graph_node, query_link.node, to_ids)`. -/
def process_link (g : Graph) (idx : Index) (node : GNode) (graphLink : GLink)
    (queryLink : QItem) (ids : Option (List PyVal)) (result : PyVal) :
    Except PyErr (Index × Option (GNode × QNode × List PyVal)) :=
  match store_links idx node graphLink queryLink ids result with
  | .error e => .error e
  | .ok idx2 =>
  let fromList := ids.isSome && graphLink.requires.isSome
  match link_result_to_ids fromList graphLink.typeEnum result with
  | .error e => .error e
  | .ok toIds =>
  if toIds.isEmpty then
    .ok (idx2, none)
  else
    match g.nodesMap graphLink.node with
    | some target => .ok (idx2, some (target, queryLink.qnode, toIds))
    | none => .error (.keyError graphLink.node)

/-! ## `SplitQuery` and the unordered `process_node` schedule
(`hiku/engine.py` 121-153, 677-716) -/

/-- One entry of `SplitQuery`'s `_fields` list: the callable identity
the engine batches under, the schema member and the query item. -/
abbrev FTriple := Nat × NodeMember × QItem

/-- One entry of `SplitQuery`'s `_links` list. -/
abbrev LPair := GLink × QItem

/-- One visit step of `SplitQuery`: a query field appends a field group;
a query link whose schema member is a `Link` first visits a synthesized
`QueryField(link.requires)` when `requires` is set and then appends a
link entry; a query link whose schema member is a `Field` (a "complex
field") appends a field group.  A name missing from `fields_map` is a
`KeyError`. -/
def splitStep (node : GNode) (acc : List FTriple × List LPair) (item : QItem) :
    Except PyErr (List FTriple × List LPair) :=
  match item with
  | .qfield name _ _ =>
    match node.fieldsMap name with
    | none => .error (.keyError name)
    | some m => .ok (acc.1 ++ [(m.effFunc, m, item)], acc.2)
  | .qlink name _ _ _ _ =>
    match node.fieldsMap name with
    | none => .error (.keyError name)
    | some (.link gl) =>
      match gl.requires with
      | some r =>
        match node.fieldsMap r with
        | none => .error (.keyError r)
        | some mr =>
          .ok (acc.1 ++ [(mr.effFunc, mr, .qfield r none r)],
               acc.2 ++ [(gl, item)])
      | none => .ok (acc.1, acc.2 ++ [(gl, item)])
    | some (.field gf) =>
      .ok (acc.1 ++ [((NodeMember.field gf).effFunc, .field gf, item)], acc.2)

/-- The visitor loop of `SplitQuery.split`. -/
def splitGo (node : GNode) (acc : List FTriple × List LPair) :
    List QItem → Except PyErr (List FTriple × List LPair)
  | [] => .ok acc
  | item :: rest =>
    match splitStep node acc item with
    | .ok acc2 => splitGo node acc2 rest
    | .error e => .error e

/-- `SplitQuery(node).split(query_node)`: fold the visitor over the
query node's items. -/
def splitQuery (node : GNode) (q : QNode) :
    Except PyErr (List FTriple × List LPair) :=
  splitGo node ([], []) q.items

/-- `to_func` of `process_node`: map each schema member's name to its
callable identity (dict assignment, later writes win). -/
def toFuncMap (fields : List FTriple) : List (String × Nat) :=
  fields.foldl (fun acc t => setAssoc acc t.2.1.name t.1) []

/-- One step of filling `from_func`: append the field pair under its
callable identity, creating the group on first sight of the key. -/
def groupInsert (acc : List (Nat × List (NodeMember × QItem)))
    (t : FTriple) : List (Nat × List (NodeMember × QItem)) :=
  if (acc.lookup t.1).isSome then
    acc.map (fun grp =>
      if grp.1 = t.1 then (grp.1, grp.2 ++ [(t.2.1, t.2.2)]) else grp)
  else acc ++ [(t.1, [(t.2.1, t.2.2)])]

/-- `from_func` of `process_node`: group the field triples by callable
identity, preserving first-insertion order of the keys
(`defaultdict(list)` filled in iteration order). -/
def groupByFunc (fields : List FTriple) :
    List (Nat × List (NodeMember × QItem)) :=
  fields.foldl groupInsert []

/-- The field groups the unordered branch of `process_node` schedules:
one `_schedule_fields` call per entry. -/
def processNodeUnorderedFieldGroups (node : GNode) (q : QNode) :
    Except PyErr (List (Nat × List (NodeMember × QItem))) :=
  match splitQuery node q with
  | .ok (fields, _) => .ok (groupByFunc fields)
  | .error e => .error e

/-- Modelled from the spec: "the number of distinct resolver identities
across its QueryFields/complex-QueryLinks" — the resolver identities of
the node's own query fields and complex query links, excluding the
requires-fields `SplitQuery` synthesizes for links.  This is the
claim-side reading that theorems compare against the code. -/
def queryItemResolvers (node : GNode) : List QItem → Except PyErr (List Nat)
  | [] => .ok []
  | .qfield name _ _ :: rest =>
    match node.fieldsMap name with
    | none => .error (.keyError name)
    | some m =>
      match queryItemResolvers node rest with
      | .ok tail => .ok (m.effFunc :: tail)
      | .error e => .error e
  | .qlink name _ _ _ _ :: rest =>
    match node.fieldsMap name with
    | none => .error (.keyError name)
    | some (.link _) => queryItemResolvers node rest
    | some (.field gf) =>
      match queryItemResolvers node rest with
      | .ok tail => .ok ((NodeMember.field gf).effFunc :: tail)
      | .error e => .error e

/-- The resolver identities `SplitQuery` actually collects into field
groups, stated as a direct recursion over the query items: query
fields, complex query links, and the requires-field of every plain
query link that declares `requires`. -/
def scheduledResolvers (node : GNode) : List QItem → Except PyErr (List Nat)
  | [] => .ok []
  | .qfield name _ _ :: rest =>
    match node.fieldsMap name with
    | none => .error (.keyError name)
    | some m =>
      match scheduledResolvers node rest with
      | .ok tail => .ok (m.effFunc :: tail)
      | .error e => .error e
  | .qlink name _ _ _ _ :: rest =>
    match node.fieldsMap name with
    | none => .error (.keyError name)
    | some (.link gl) =>
      match gl.requires with
      | some r =>
        match node.fieldsMap r with
        | none => .error (.keyError r)
        | some mr =>
          match scheduledResolvers node rest with
          | .ok tail => .ok (mr.effFunc :: tail)
          | .error e => .error e
      | none => scheduledResolvers node rest
    | some (.field gf) =>
      match scheduledResolvers node rest with
      | .ok tail => .ok ((NodeMember.field gf).effFunc :: tail)
      | .error e => .error e

/-! ## Trace model of the unordered schedule (for the dependency claim)

Modelled from the spec: the `Queue`/`TaskSet` implementation
(`hiku/executors/queue.py`) is not in the repository snapshot; per spec
section 4.4, callbacks attached to the same dependency fire in
registration order, and callbacks attached to different dependencies
fire in the (arbitrary) completion order.  In `process_node`'s
unordered branch, `_schedule_fields` registers each field group's
store-callback on its submission before the link loop registers the
link-scheduling callbacks on the same submission, so a completed field
group first stores its rows and then schedules the deferred links, in
registration order; links without `requires` are scheduled during
`process_node` itself, before any completion callback can run.  A trace
is therefore determined by a completion order `σ` of the distinct field
groups. -/

/-- Observable scheduling events at one node: a field group's result
being stored into the index (the completion callback of
`_schedule_fields`), or a link's resolver being submitted
(`_schedule_link`). -/
inductive Ev where
  | fieldStored (func : Nat)
  | linkSubmitted (ql : QItem)
deriving DecidableEq

/-- The links whose deferred scheduling is attached (in registration
order) to the field group of callable identity `f`:
`to_dep[to_func[link.requires]]` resolves to `f`'s submission. -/
def linksAttachedTo (fields : List FTriple) (links : List LPair) (f : Nat) :
    List LPair :=
  links.filter (fun p =>
    match p.1.requires with
    | some r => (toFuncMap fields).lookup r == some f
    | none => false)

/-- The links `process_node` schedules immediately (no `requires`). -/
def immediateLinks (links : List LPair) : List LPair :=
  links.filter (fun p => p.1.requires.isNone)

/-- The distinct callable identities `process_node` submits (the keys of
`from_func`, in first-insertion order). -/
def distinctFuncs (fields : List FTriple) : List Nat :=
  (groupByFunc fields).map Prod.fst

/-- The event trace of one unordered `process_node` under completion
order `σ`: immediate link submissions first (issued while
`process_node` runs), then for each completed field group its store
event followed by the submissions of the links deferred behind it. -/
def nodeTrace (fields : List FTriple) (links : List LPair) (σ : List Nat) :
    List Ev :=
  (immediateLinks links).map (fun p => .linkSubmitted p.2) ++
    (σ.map (fun f =>
      Ev.fieldStored f ::
        (linksAttachedTo fields links f).map (fun p => .linkSubmitted p.2))).flatten

/-- Event `a` occurs strictly before event `b` in trace `l`. -/
def Precedes (a b : Ev) (l : List Ev) : Prop :=
  ∃ l1 l2 l3, l = l1 ++ a :: l2 ++ b :: l3

/-! ## Link cache read path (`hiku/engine.py` 484-514, 770-846) -/

/-- `get_cached_link_ids(cache, query_link, reqs)`: derive each
requires-value's cache key, fetch them (`get_many` is modelled by
association lookup in the cache contents), and partition the
requires-values in order into cached (with their deep-copied payloads —
deep copies are identities here) and not cached. -/
def get_cached_link_ids (sha1 : List String → String) (pyhash : PyVal → Int)
    (cache : List (String × PyVal)) (queryLink : QItem) :
    List PyVal → List PyVal × List PyVal × List PyVal
  | [] => ([], [], [])
  | req :: rest =>
    let (cachedReqs, cachedData, notCachedReqs) :=
      get_cached_link_ids sha1 pyhash cache queryLink rest
    match cache.lookup (get_query_hash sha1 pyhash queryLink req) with
    | some data => (req :: cachedReqs, data :: cachedData, notCachedReqs)
    | none => (cachedReqs, cachedData, req :: notCachedReqs)

/-- `dict.pop(k)` on a Python dict: the value under `k` and the dict
without that entry, or `None` (a `KeyError`) when `k` is absent. -/
def popKey (k : String) : PyKVs → Option (PyVal × PyKVs)
  | .nil => none
  | .cons k' v rest =>
    if k' = k then some (v, rest)
    else
      match popKey k rest with
      | some (v0, rest0) => some (v0, .cons k' v rest0)
      | none => none

/-- `value` must be a string to serve as a record key. -/
def asStr : PyVal → Except PyErr String
  | .str s => .ok s
  | _ => .error .attrError

mutual
/-- `update_index(index, graph, node, ids, data)`: replay a cached
payload into the index.  Each row paired with an id either carries a
top-level `__ref__`/`__field_name__` pair — then the reference is
written under the field name and the remaining fields are replayed into
the referenced node — or is written as the id's record, after which
every value that is a dict carrying `__ref__` is likewise replaced by
its reference and replayed.  Caching at `Root` is NotImplemented. -/
def update_index (g : Graph) (node : GNode) (ids : List PyVal)
    (data : List PyVal) (idx : Index) : Except PyErr Index :=
  match node.name with
  | none => .error .notImplemented
  | some nm =>
    match ids, data with
    | [], _ => .ok idx
    | _, [] => .ok idx
    | i :: idsRest, row :: dataRest =>
      match row with
      | .dict entries =>
        match h1 : popKey "__ref__" entries with
        | some (refv, rest1) =>
          (match h2 : popKey "__field_name__" rest1 with
          | some (fieldNameV, rest2) => do
            let fn ← asStr fieldNameV
            let idx1 := idx.setCell nm i fn refv
            match refv with
            | .ref refNode refIdent =>
              (match g.nodesMap refNode with
              | some tnode => do
                let idx2 ← update_index g tnode [refIdent] [.dict rest2] idx1
                update_index g node idsRest dataRest idx2
              | none => .error (.keyError refNode))
            | _ => .error .attrError
          | none => .error (.keyError "__field_name__"))
        | none => do
          let idx1 := idx.setRecord nm i entries.toList
          let idx2 ← update_row_values g nm i entries idx1
          update_index g node idsRest dataRest idx2
      | _ => .error .attrError
termination_by sizeOf data
decreasing_by
  all_goals simp_wf
  all_goals try omega
  all_goals
    (have hp : ∀ (n : Nat) (k : String) (l : PyKVs), sizeOf l ≤ n →
        ∀ p : PyVal × PyKVs, popKey k l = some p → sizeOf p.2 < sizeOf l := by
      intro n
      induction n with
      | zero =>
        intro k l hl p h
        cases l <;> simp_all [popKey]
      | succ m ih =>
        intro k l hl p h
        cases l with
        | nil => simp [popKey] at h
        | cons k0 v0 r0 =>
          simp only [popKey] at h
          split at h
          · cases h
            simp
            try omega
          · split at h
            · rename_i v1 r1 hrec
              cases h
              have hr0 : sizeOf r0 ≤ m := by
                simp at hl
                omega
              have hlt := ih k r0 hr0 _ hrec
              simp at hlt ⊢
              try omega
            · exact absurd h (by simp)
     have hp2 : ∀ (k : String) (l : PyKVs) (p : PyVal × PyKVs),
         popKey k l = some p → sizeOf p.2 < sizeOf l :=
       fun k l p h => hp (sizeOf l) k l le_rfl p h
     have ha := hp2 _ _ _ h1
     have hb := hp2 _ _ _ h2
     simp at ha hb ⊢
     omega)

/-- The inner loop of `update_index`'s else-branch: for each record
value that is a dict carrying `__ref__`, pop the sentinels, write the
reference under the popped field name and replay the remaining fields
into the referenced node. -/
def update_row_values (g : Graph) (nm : String) (i : PyVal) (vals : PyKVs)
    (idx : Index) : Except PyErr Index :=
  match vals with
  | .nil => .ok idx
  | .cons field value rest =>
    match value with
    | .dict ventries =>
      match h1 : popKey "__ref__" ventries with
      | some (refv, vrest1) =>
        (match h2 : popKey "__field_name__" vrest1 with
        | some (fieldNameV, vrest2) => do
          let fn ← asStr fieldNameV
          let idx1 := (idx.setCell nm i field (.dict vrest2)).setCell nm i fn refv
          match refv with
          | .ref refNode refIdent =>
            (match g.nodesMap refNode with
            | some tnode => do
              let idx2 ← update_index g tnode [refIdent] [.dict vrest2] idx1
              update_row_values g nm i rest idx2
            | none => .error (.keyError refNode))
          | _ => .error .attrError
        | none => .error (.keyError "__field_name__"))
      | none => update_row_values g nm i rest idx
    | _ => update_row_values g nm i rest idx
termination_by sizeOf vals
decreasing_by
  all_goals simp_wf
  all_goals try omega
  all_goals
    (have hp : ∀ (n : Nat) (k : String) (l : PyKVs), sizeOf l ≤ n →
        ∀ p : PyVal × PyKVs, popKey k l = some p → sizeOf p.2 < sizeOf l := by
      intro n
      induction n with
      | zero =>
        intro k l hl p h
        cases l <;> simp_all [popKey]
      | succ m ih =>
        intro k l hl p h
        cases l with
        | nil => simp [popKey] at h
        | cons k0 v0 r0 =>
          simp only [popKey] at h
          split at h
          · cases h
            simp
            try omega
          · split at h
            · rename_i v1 r1 hrec
              cases h
              have hr0 : sizeOf r0 ≤ m := by
                simp at hl
                omega
              have hlt := ih k r0 hr0 _ hrec
              simp at hlt ⊢
              try omega
            · exact absurd h (by simp)
     have hp2 : ∀ (k : String) (l : PyKVs) (p : PyVal × PyKVs),
         popKey k l = some p → sizeOf p.2 < sizeOf l :=
       fun k l p h => hp (sizeOf l) k l le_rfl p h
     have ha := hp2 _ _ _ h1
     have hb := hp2 _ _ _ h2
     simp at ha hb ⊢
     omega)
end

/-- What one `Query._schedule_link` run does, reified: the positional
arguments the link resolver is submitted with, the partition data of
the cache read path, the index after cached payloads were replayed, and
the ids the completion callback hands to `process_link` (after the
cache-hit ids were dropped).  `registersCacheWrite` records whether the
run registered the `store_link_cache` done-callback. -/
structure ScheduleLinkRun where
  args : List PyVal
  cachedIds : List PyVal
  cachedData : List PyVal
  indexAfter : Index
  callbackIds : Option (List PyVal)
  registersCacheWrite : Bool
deriving DecidableEq

/-- The argument-building prefix of `Query._schedule_link`: with
`requires`, fetch the required values from the index; when the query
link carries the `cached` directive and a cache is configured,
partition the requires-values by cache hit via `get_cached_link_ids`,
collect the cache-hit ids (`for i, req in zip(ids, reqs)`), replay the
cached payloads through `update_index` (when any), and pass only the
uncached requires-values; otherwise pass all the required values.
Returns (first positional args, cached_ids, cached_data, index). -/
def schedule_link_prepare (sha1 : List String → String)
    (pyhash : PyVal → Int) (g : Graph) (idx : Index) (node : GNode)
    (graphLink : GLink) (queryLink : QItem) (ids : Option (List PyVal))
    (cache : Option (List (String × PyVal))) :
    Except PyErr (List PyVal × List PyVal × List PyVal × Index) :=
  match graphLink.requires with
  | none => .ok ([], [], [], idx)
  | some _ =>
    match link_reqs idx node graphLink ids with
    | .error e => .error e
    | .ok reqsVal =>
      match queryLink.cachedTtl, cache with
      | some _, some c =>
        (match reqsVal.seqElems, ids with
        | some reqs, some idsL =>
          let gcli := get_cached_link_ids sha1 pyhash c queryLink reqs
          let cachedIds := ((idsL.zip reqs).filter
            (fun p => gcli.1.contains p.2)).map Prod.fst
          match (if gcli.2.1.isEmpty then Except.ok idx
            else update_index g node cachedIds gcli.2.1 idx) with
          | .error e => .error e
          | .ok idx1 =>
            .ok ([PyVal.list (.ofList gcli.2.2)], cachedIds, gcli.2.1, idx1)
        | _, _ => .error PyErr.notSequence)
      | _, _ => .ok ([reqsVal], [], [], idx)

/-- What one `Query._schedule_link` run does, up to and including the
submission, plus the id-dropping step of its completion callback
(`ids = [i for i in ids if i not in cached_ids]`), with the resolver
invocation itself left to the caller.  Options are appended as a final
argument when the schema link declares options; `callbackIds` are the
ids `process_link` receives. -/
def schedule_link (sha1 : List String → String) (pyhash : PyVal → Int)
    (g : Graph) (idx : Index) (node : GNode) (graphLink : GLink)
    (queryLink : QItem) (ids : Option (List PyVal))
    (cache : Option (List (String × PyVal))) : Except PyErr ScheduleLinkRun :=
  match schedule_link_prepare sha1 pyhash g idx node graphLink queryLink ids
    cache with
  | .error e => .error e
  | .ok (args0, cachedIds, cachedData, idx1) =>
    .ok
      { args :=
          if graphLink.options.isEmpty then args0
          else args0 ++ [PyVal.dict (.ofList ((queryLink.options).getD []))]
        cachedIds := cachedIds
        cachedData := cachedData
        indexAfter := idx1
        callbackIds :=
          if cachedIds.isEmpty then ids
          else some ((ids.getD []).filter (fun i => !(cachedIds.contains i)))
        registersCacheWrite := queryLink.cachedTtl.isSome && cache.isSome }

/-- Whether a validation outcome is the link-shape `TypeError` (the
error class that carries an expected-shape text and a hint). -/
def isLinkShapeError : Except PyErr Unit → Bool
  | .error (.linkShape _ _ _ _ _) => true
  | _ => false

/-! # Theorems -/

/-! ## Helper lemmas -/

@[simp]
theorem PyVals.toList_ofList : ∀ l : List PyVal, (PyVals.ofList l).toList = l
  | [] => rfl
  | x :: xs => by
    simp [PyVals.ofList, PyVals.toList, PyVals.toList_ofList xs]

theorem mem_of_lookup_eq_some {α β : Type} [BEq α] [LawfulBEq α] :
    ∀ {l : List (α × β)} {k : α} {v : β}, l.lookup k = some v → (k, v) ∈ l
  | [], _, _, h => by simp [List.lookup] at h
  | (a, b) :: rest, k, v, h => by
    rw [List.lookup] at h
    split at h
    · rename_i heq
      cases h
      have hak : k = a := eq_of_beq heq
      subst hak
      exact List.mem_cons_self _ _
    · exact List.mem_cons_of_mem _ (mem_of_lookup_eq_some h)

theorem lookup_isSome_iff {α β : Type} [BEq α] [LawfulBEq α] :
    ∀ {l : List (α × β)} {k : α},
      (l.lookup k).isSome ↔ k ∈ l.map Prod.fst
  | [], k => by simp [List.lookup]
  | (a, b) :: rest, k => by
    rw [List.lookup]
    constructor
    · intro h
      split at h
      · rename_i heq
        simp [eq_of_beq heq]
      · simp only [List.map_cons, List.mem_cons]
        exact Or.inr (lookup_isSome_iff.mp h)
    · intro h
      split
      · simp
      · rename_i hne
        simp only [List.map_cons, List.mem_cons] at h
        rcases h with h | h
        · rw [h] at hne
          simp at hne
        · exact lookup_isSome_iff.mpr h

/-! ## C7: cache key derivation and stability -/

/-- C7: `query_hash(q, v)` is deterministic — it depends only on the
`index_key`s emitted by traversing the query sub-tree under `q` (in
traversal order, as collected by `hashVisitItem`) and on the Python
hash of the requires-value — and it equals the SHA1 digest of exactly
the traversal chunks, followed by `str(hash(v))`, followed by the
engine-wide version tag. -/
theorem c7_query_hash_stability (sha1 : List String → String)
    (pyhash : PyVal → Int) (q q' : QItem) (v v' : PyVal)
    (hkeys : hashVisitItem q = hashVisitItem q')
    (hreq : pyhash v = pyhash v') :
    get_query_hash sha1 pyhash q v = get_query_hash sha1 pyhash q' v' ∧
    get_query_hash sha1 pyhash q v =
      sha1 (hashVisitItem q ++ [toString (pyhash v), CACHE_VERSION]) := by
  refine ⟨?_, rfl⟩
  unfold get_query_hash
  rw [hkeys, hreq]

/-- Witness for C7 at concrete inputs: two query links that differ in
their options but share `index_key`s, and two distinct requires-values
with equal Python hash, produce the same key, and the key is the digest
of the traversal chunks plus hash plus version tag. -/
theorem c7_query_hash_stability_witness :
    get_query_hash (String.intercalate "|") (fun _ => 7)
        (.qlink "a" none "a" (.mk false (.cons (.qfield "b" none "b") .nil))
          none) (.int 1) =
      get_query_hash (String.intercalate "|") (fun _ => 7)
        (.qlink "a" (some [("x", .int 3)]) "a"
          (.mk true (.cons (.qfield "b" (some []) "b") .nil)) (some 9))
        (.int 2) ∧
    get_query_hash (String.intercalate "|") (fun _ => 7)
        (.qlink "a" none "a" (.mk false (.cons (.qfield "b" none "b") .nil))
          none) (.int 1) =
      String.intercalate "|"
        (hashVisitItem
            (.qlink "a" none "a"
              (.mk false (.cons (.qfield "b" none "b") .nil)) none) ++
          [toString (7 : Int), CACHE_VERSION]) :=
  c7_query_hash_stability (String.intercalate "|") (fun _ => 7) _ _ _ _
    rfl rfl

/-! ## C4: option initialization -/

/-- C4: for every declared schema `Option`, option initialization takes
the value from the query's options map when present and otherwise
substitutes the option's default; it fails — with the
`MissingRequiredOption` error naming a declared option — exactly when
some declared option's default is the `Nothing` sentinel and the query
omits it.  (The query's own option values are assumed not to be the
internal `Nothing` sentinel.) -/
theorem c4_option_initialization (declared : List GOption)
    (qopts : Option (List (String × PyVal)))
    (hq : ∀ p ∈ qopts.getD [], p.2 ≠ PyVal.nothing) :
    (∀ res, get_options declared qopts = .ok res →
      res = declared.map (fun o =>
        (o.name, ((qopts.getD []).lookup o.name).getD o.default))) ∧
    ((∃ res, get_options declared qopts = .ok res) ↔
      ∀ o ∈ declared, o.default ≠ PyVal.nothing ∨
        ((qopts.getD []).lookup o.name).isSome) ∧
    (∀ e, get_options declared qopts = .error e →
      ∃ o ∈ declared, e = .requiredOption o.name ∧
        o.default = PyVal.nothing ∧ (qopts.getD []).lookup o.name = none) := by
  unfold get_options
  induction declared with
  | nil =>
    refine ⟨?_, ?_, ?_⟩
    · intro res h
      simp only [yield_options_go, Except.ok.injEq] at h
      simp [h.symm]
    · simp [yield_options_go]
    · intro e h
      simp [yield_options_go] at h
  | cons o rest ih =>
    obtain ⟨ih1, ih2, ih3⟩ := ih
    cases hlv : (qopts.getD []).lookup o.name with
    | some v =>
      have hv : v ≠ PyVal.nothing :=
        hq (o.name, v) (mem_of_lookup_eq_some hlv)
      cases hgo : yield_options_go (qopts.getD []) rest with
      | ok tl =>
        rw [hgo] at ih1 ih2 ih3
        refine ⟨?_, ?_, ?_⟩
        · intro res h
          simp only [yield_options_go, hlv, Option.getD_some, if_neg hv, hgo,
            Except.ok.injEq] at h
          simp [h.symm, hlv, ih1 tl rfl]
        · simp only [yield_options_go, hlv, Option.getD_some, if_neg hv, hgo]
          constructor
          · intro _ p hp
            rcases List.mem_cons.mp hp with hh | hh
            · subst hh
              right
              simp [hlv]
            · exact (ih2.mp ⟨tl, rfl⟩) p hh
          · intro _
            exact ⟨_, rfl⟩
        · intro e h
          simp only [yield_options_go, hlv, Option.getD_some, if_neg hv,
            hgo] at h
          exact Except.noConfusion h
      | error e0 =>
        rw [hgo] at ih1 ih2 ih3
        refine ⟨?_, ?_, ?_⟩
        · intro res h
          simp only [yield_options_go, hlv, Option.getD_some, if_neg hv,
            hgo] at h
          exact Except.noConfusion h
        · simp only [yield_options_go, hlv, Option.getD_some, if_neg hv, hgo]
          constructor
          · intro h
            obtain ⟨res, hres⟩ := h
            cases hres
          · intro hall
            have hrest : ∀ p ∈ rest, p.default ≠ PyVal.nothing ∨
                ((qopts.getD []).lookup p.name).isSome := by
              intro p hp
              exact hall p (List.mem_cons_of_mem _ hp)
            obtain ⟨res, hres⟩ := ih2.mpr hrest
            cases hres
        · intro e h
          simp only [yield_options_go, hlv, Option.getD_some, if_neg hv, hgo,
            Except.error.injEq] at h
          subst h
          obtain ⟨p, hp, he⟩ := ih3 e0 rfl
          exact ⟨p, List.mem_cons_of_mem _ hp, he⟩
    | none =>
      by_cases hd : o.default = PyVal.nothing
      · refine ⟨?_, ?_, ?_⟩
        · intro res h
          simp only [yield_options_go, hlv, Option.getD_none, if_pos hd] at h
          exact Except.noConfusion h
        · constructor
          · intro h
            obtain ⟨res, hres⟩ := h
            simp only [yield_options_go, hlv, Option.getD_none,
              if_pos hd] at hres
            exact Except.noConfusion hres
          · intro hall
            rcases hall o (List.mem_cons_self o rest) with hh | hh
            · exact absurd hd hh
            · rw [hlv] at hh
              simp at hh
        · intro e h
          simp only [yield_options_go, hlv, Option.getD_none, if_pos hd,
            Except.error.injEq] at h
          exact ⟨o, List.mem_cons_self o rest, h.symm, hd, hlv⟩
      · cases hgo : yield_options_go (qopts.getD []) rest with
        | ok tl =>
          rw [hgo] at ih1 ih2 ih3
          refine ⟨?_, ?_, ?_⟩
          · intro res h
            simp only [yield_options_go, hlv, Option.getD_none, if_neg hd,
              hgo, Except.ok.injEq] at h
            simp [h.symm, hlv, ih1 tl rfl]
          · simp only [yield_options_go, hlv, Option.getD_none, if_neg hd, hgo]
            constructor
            · intro _ p hp
              rcases List.mem_cons.mp hp with hh | hh
              · subst hh
                exact Or.inl hd
              · exact (ih2.mp ⟨tl, rfl⟩) p hh
            · intro _
              exact ⟨_, rfl⟩
          · intro e h
            simp only [yield_options_go, hlv, Option.getD_none, if_neg hd,
              hgo] at h
            exact Except.noConfusion h
        | error e0 =>
          rw [hgo] at ih1 ih2 ih3
          refine ⟨?_, ?_, ?_⟩
          · intro res h
            simp only [yield_options_go, hlv, Option.getD_none, if_neg hd,
              hgo] at h
            exact Except.noConfusion h
          · simp only [yield_options_go, hlv, Option.getD_none, if_neg hd, hgo]
            constructor
            · intro h
              obtain ⟨res, hres⟩ := h
              cases hres
            · intro hall
              have hrest : ∀ p ∈ rest, p.default ≠ PyVal.nothing ∨
                  ((qopts.getD []).lookup p.name).isSome := by
                intro p hp
                exact hall p (List.mem_cons_of_mem _ hp)
              obtain ⟨res, hres⟩ := ih2.mpr hrest
              cases hres
          · intro e h
            simp only [yield_options_go, hlv, Option.getD_none, if_neg hd,
              hgo, Except.error.injEq] at h
            subst h
            obtain ⟨p, hp, he⟩ := ih3 e0 rfl
            exact ⟨p, List.mem_cons_of_mem _ hp, he⟩

/-- Witness for C4 at a concrete input (the spec's option-defaulting
scenario, plus a required option supplied by the query): `size`
defaults to 100, `flag` is required and supplied. -/
theorem c4_option_initialization_witness :
    (∀ res,
      get_options [⟨"size", PyVal.int 100⟩, ⟨"flag", PyVal.nothing⟩]
          (some [("flag", PyVal.bool true)]) = .ok res →
      res = [("size", PyVal.int 100), ("flag", PyVal.bool true)]) ∧
    ((∃ res,
        get_options [⟨"size", PyVal.int 100⟩, ⟨"flag", PyVal.nothing⟩]
          (some [("flag", PyVal.bool true)]) = .ok res) ↔
      ∀ o ∈ [(⟨"size", PyVal.int 100⟩ : GOption), ⟨"flag", PyVal.nothing⟩],
        o.default ≠ PyVal.nothing ∨
          (([("flag", PyVal.bool true)] :
            List (String × PyVal)).lookup o.name).isSome) ∧
    (∀ e,
      get_options [⟨"size", PyVal.int 100⟩, ⟨"flag", PyVal.nothing⟩]
          (some [("flag", PyVal.bool true)]) = .error e →
      ∃ o ∈ [(⟨"size", PyVal.int 100⟩ : GOption), ⟨"flag", PyVal.nothing⟩],
        e = .requiredOption o.name ∧ o.default = PyVal.nothing ∧
          (([("flag", PyVal.bool true)] :
            List (String × PyVal)).lookup o.name) = none) := by
  have h := c4_option_initialization
    [⟨"size", PyVal.int 100⟩, ⟨"flag", PyVal.nothing⟩]
    (some [("flag", PyVal.bool true)]) (by decide)
  refine ⟨?_, h.2.1, h.2.2⟩
  intro res hres
  rw [h.1 res hres]
  rfl


/-! ## C5: field result shape validation -/

/-- C5: storing a field-resolver result succeeds exactly when the
result has the contractual shape — at a named node a sequence of
`len(ids)` rows, each a sequence of `len(fields)` values; at `Root` a
single sequence of `len(fields)` values — and on any violation it fails
with the shape error carrying the expected shape text and the observed
result. -/
theorem c5_resolver_shape (nm : String) (mems : List NodeMember)
    (fields : List QItem) (ids : List PyVal) (result : PyVal) (idx : Index) :
    ((∃ idx2,
        store_fields idx ⟨some nm, mems⟩ fields (some ids) result =
          .ok idx2) ↔
      ∃ rows, result.seqElems = some rows ∧ rows.length = ids.length ∧
        ∀ r ∈ rows, ∃ cells, r.seqElems = some cells ∧
          cells.length = fields.length) ∧
    ((¬ ∃ rows, result.seqElems = some rows ∧ rows.length = ids.length ∧
        ∀ r ∈ rows, ∃ cells, r.seqElems = some cells ∧
          cells.length = fields.length) →
      store_fields idx ⟨some nm, mems⟩ fields (some ids) result =
        .error (.fieldShape nm (fields.map QItem.name)
          (fieldShapeExpected ids.length fields.length) result)) ∧
    ((∃ idx2, store_fields idx ⟨none, mems⟩ fields none result = .ok idx2) ↔
      ∃ cells, result.seqElems = some cells ∧
        cells.length = fields.length) ∧
    ((¬ ∃ cells, result.seqElems = some cells ∧
        cells.length = fields.length) →
      store_fields idx ⟨none, mems⟩ fields none result =
        .error (.fieldShape "__root__" (fields.map QItem.name)
          (rootFieldShapeExpected fields.length) result)) := by
  have hnamed : check_store_fields ⟨some nm, mems⟩ fields (some ids) result =
      .ok () ↔
      ∃ rows, result.seqElems = some rows ∧ rows.length = ids.length ∧
        ∀ r ∈ rows, ∃ cells, r.seqElems = some cells ∧
          cells.length = fields.length := by
    unfold check_store_fields
    cases hse : result.seqElems with
    | none =>
      simp only [hse]
      constructor
      · intro h
        exact Except.noConfusion h
      · rintro ⟨rows, hrows, _⟩
        exact Option.noConfusion hrows
    | some rows =>
      simp only [hse]
      constructor
      · intro h
        split at h
        · rename_i hok
          simp only [Bool.and_eq_true, beq_iff_eq, List.all_eq_true] at hok
          refine ⟨rows, rfl, hok.1, fun r hr => ?_⟩
          have hm := hok.2 r hr
          cases hre : r.seqElems with
          | none =>
            rw [hre] at hm
            exact absurd hm (by simp)
          | some cells =>
            rw [hre] at hm
            exact ⟨cells, rfl, by simpa using hm⟩
        · exact Except.noConfusion h
      · rintro ⟨rows2, hrows2, hlen, hcells⟩
        have hr2 : rows2 = rows := by
          injection hrows2 with h
          exact h.symm
        subst hr2
        rw [if_pos]
        simp only [Bool.and_eq_true, beq_iff_eq, List.all_eq_true]
        refine ⟨hlen, fun r hr => ?_⟩
        obtain ⟨cells, hcse, hclen⟩ := hcells r hr
        rw [hcse]
        simpa using hclen
  have hroot : check_store_fields ⟨none, mems⟩ fields none result =
      .ok () ↔
      ∃ cells, result.seqElems = some cells ∧
        cells.length = fields.length := by
    unfold check_store_fields
    cases hse : result.seqElems with
    | none =>
      simp only [hse]
      constructor
      · intro h
        exact Except.noConfusion h
      · rintro ⟨cells, hc, _⟩
        exact Option.noConfusion hc
    | some cells =>
      simp only [hse]
      constructor
      · intro h
        split at h
        · rename_i hok
          exact ⟨cells, rfl, by simpa using hok⟩
        · exact Except.noConfusion h
      · rintro ⟨cells2, hc2, hlen⟩
        have : cells2 = cells := by
          injection hc2 with h
          exact h.symm
        subst this
        rw [if_pos]
        simpa using hlen
  have hnamed_err : check_store_fields ⟨some nm, mems⟩ fields (some ids)
      result ≠ .ok () →
      check_store_fields ⟨some nm, mems⟩ fields (some ids) result =
        .error (.fieldShape nm (fields.map QItem.name)
          (fieldShapeExpected ids.length fields.length) result) := by
    intro hne
    unfold check_store_fields at hne ⊢
    cases hse : result.seqElems with
    | none =>
      simp only [hse] at hne ⊢
      try rfl
    | some rows =>
      simp only [hse] at hne ⊢
      split at hne
      · exact absurd rfl hne
      · rename_i hcond
        simp only [hcond]
        try rfl
  have hroot_err : check_store_fields ⟨none, mems⟩ fields none result ≠
      .ok () →
      check_store_fields ⟨none, mems⟩ fields none result =
        .error (.fieldShape "__root__" (fields.map QItem.name)
          (rootFieldShapeExpected fields.length) result) := by
    intro hne
    unfold check_store_fields at hne ⊢
    cases hse : result.seqElems with
    | none =>
      simp only [hse] at hne ⊢
      try rfl
    | some cells =>
      simp only [hse] at hne ⊢
      split at hne
      · exact absurd rfl hne
      · rename_i hcond
        simp only [hcond]
        try rfl
  refine ⟨?_, ?_, ?_, ?_⟩
  · constructor
    · rintro ⟨idx2, h⟩
      unfold store_fields at h
      rw [← hnamed]
      cases hc : check_store_fields ⟨some nm, mems⟩ fields (some ids) result
        with
      | ok u => cases u; rfl
      | error e =>
        rw [hc] at h
        exact Except.noConfusion h
    · intro hp
      have hc := hnamed.mpr hp
      unfold store_fields
      rw [hc]
      exact ⟨_, rfl⟩
  · intro hp
    have hc := hnamed_err (fun hok => hp (hnamed.mp hok))
    unfold store_fields
    rw [hc]
  · constructor
    · rintro ⟨idx2, h⟩
      unfold store_fields at h
      rw [← hroot]
      cases hc : check_store_fields ⟨none, mems⟩ fields none result with
      | ok u => cases u; rfl
      | error e =>
        rw [hc] at h
        exact Except.noConfusion h
    · intro hp
      have hc := hroot.mpr hp
      unfold store_fields
      rw [hc]
      exact ⟨_, rfl⟩
  · intro hp
    have hc := hroot_err (fun hok => hp (hroot.mp hok))
    unfold store_fields
    rw [hc]

/-- Witness for C5 at concrete inputs: a two-id, one-field result of
the right shape is stored; a flat (row-less) result for the same call
is rejected with the expected/observed payload. -/
theorem c5_resolver_shape_witness :
    store_fields ⟨[], []⟩ ⟨some "u", []⟩ [.qfield "a" none "a"]
        (some [.int 1]) (.list (.cons (.int 7) .nil)) =
      .error (.fieldShape "u" ["a"] (fieldShapeExpected 1 1)
        (.list (.cons (.int 7) .nil))) :=
  (c5_resolver_shape "u" [] [.qfield "a" none "a"] [.int 1]
      (.list (.cons (.int 7) .nil)) ⟨[], []⟩).2.1 (by decide)


/-! ## C3: reduction of link results to target ids -/

theorem inner_seqs_ofList : ∀ rss : List (List PyVal),
    inner_seqs (rss.map (fun ys => PyVal.list (.ofList ys))) = .ok rss
  | [] => rfl
  | ys :: rest => by
    simp only [List.map_cons, inner_seqs, PyVal.seqElems, PyVals.toList_ofList,
      inner_seqs_ofList rest]

/-- C3: a link result handed to `process_link` is reduced to a flat id
list — `Maybe` drops every `Nothing`; `One` fails with the
`NullNonOptional` error exactly when a `Nothing` is present; `Many`
concatenates the inner sequences in order (for a single-value result,
the same rules apply to the one value) — and the recursive
`process_node` call happens exactly when the reduced id list is
non-empty. -/
theorem c3_process_link_reduction :
    (∀ rs : List PyVal,
      link_result_to_ids true .maybe (.list (.ofList rs)) =
        .ok (rs.filter (fun i => !(i == PyVal.nothing)))) ∧
    (∀ rs : List PyVal, PyVal.nothing ∈ rs →
      link_result_to_ids true .one (.list (.ofList rs)) =
        .error .nullNonOptional) ∧
    (∀ rs : List PyVal, PyVal.nothing ∉ rs →
      link_result_to_ids true .one (.list (.ofList rs)) = .ok rs) ∧
    (∀ rss : List (List PyVal),
      link_result_to_ids true .many
          (.list (.ofList (rss.map (fun ys => PyVal.list (.ofList ys))))) =
        .ok rss.flatten) ∧
    (link_result_to_ids false .maybe .nothing = .ok []) ∧
    (∀ r : PyVal, r ≠ .nothing →
      link_result_to_ids false .maybe r = .ok [r]) ∧
    (link_result_to_ids false .one .nothing = .error .nullNonOptional) ∧
    (∀ r : PyVal, r ≠ .nothing →
      link_result_to_ids false .one r = .ok [r]) ∧
    (∀ rs : List PyVal,
      link_result_to_ids false .many (.list (.ofList rs)) = .ok rs) ∧
    (∀ g idx node graphLink queryLink ids result idx2 rec,
      process_link g idx node graphLink queryLink ids result =
        .ok (idx2, rec) →
      ∃ toIds,
        link_result_to_ids (ids.isSome && graphLink.requires.isSome)
            graphLink.typeEnum result = .ok toIds ∧
          ((toIds = [] ∧ rec = none) ∨
            (toIds ≠ [] ∧ ∃ target,
              g.nodesMap graphLink.node = some target ∧
                rec = some (target, queryLink.qnode, toIds)))) := by
  refine ⟨?_, ?_, ?_, ?_, ?_, ?_, ?_, ?_, ?_, ?_⟩
  · intro rs
    simp [link_result_to_ids, PyVal.seqElems]
  · intro rs hmem
    have : rs.any (fun i => i == PyVal.nothing) = true := by
      simp only [List.any_eq_true, beq_iff_eq]
      exact ⟨PyVal.nothing, hmem, rfl⟩
    simp [link_result_to_ids, PyVal.seqElems, this]
  · intro rs hmem
    have : rs.any (fun i => i == PyVal.nothing) = false := by
      simp only [List.any_eq_false, beq_iff_eq]
      intro x hx hxn
      exact hmem (hxn ▸ hx)
    simp [link_result_to_ids, PyVal.seqElems, this]
  · intro rss
    simp [link_result_to_ids, PyVal.seqElems, inner_seqs_ofList rss]
  · rfl
  · intro r hr
    simp [link_result_to_ids, hr]
  · rfl
  · intro r hr
    simp [link_result_to_ids, hr]
  · intro rs
    simp [link_result_to_ids, PyVal.seqElems]
  · intro g idx node graphLink queryLink ids result idx2 rec h
    unfold process_link at h
    cases hsl : store_links idx node graphLink queryLink ids result with
    | error e =>
      rw [hsl] at h
      exact Except.noConfusion h
    | ok idxA =>
      rw [hsl] at h
      dsimp only at h
      cases hlr : link_result_to_ids (ids.isSome && graphLink.requires.isSome)
          graphLink.typeEnum result with
      | error e =>
        rw [hlr] at h
        exact Except.noConfusion h
      | ok toIds =>
        rw [hlr] at h
        dsimp only at h
        refine ⟨toIds, rfl, ?_⟩
        by_cases hempty : toIds.isEmpty
        · rw [if_pos hempty] at h
          injection h with h2
          injection h2 with h3 h4
          exact Or.inl ⟨List.isEmpty_iff.mp hempty, h4.symm⟩
        · rw [if_neg hempty] at h
          cases hnm : g.nodesMap graphLink.node with
          | none =>
            rw [hnm] at h
            exact Except.noConfusion h
          | some target =>
            rw [hnm] at h
            injection h with h2
            injection h2 with h3 h4
            exact Or.inr ⟨fun hnil => hempty (by simp [hnil]), target, rfl,
              h4.symm⟩

/-- Witness for C3 at concrete inputs: a `One` link returning a
`Nothing` among its idents fails with the null error.  Uses the
hypothetical conjunct of the theorem at an explicit list. -/
theorem c3_process_link_reduction_witness :
    link_result_to_ids true .one
        (.list (.ofList [PyVal.int 1, PyVal.nothing])) =
      .error .nullNonOptional :=
  c3_process_link_reduction.2.1 [PyVal.int 1, PyVal.nothing] (by simp)


/-! ## Index write/read lemmas -/

theorem lookup_setAssoc {α β : Type} [BEq α] [LawfulBEq α] [DecidableEq α]
    (l : List (α × β)) (k k' : α) (v : β) :
    (setAssoc l k v).lookup k' = if k' = k then some v else l.lookup k' := by
  induction l with
  | nil =>
    by_cases h : k' = k
    · simp [setAssoc, List.lookup, h]
    · have hb : (k' == k) = false := beq_eq_false_iff_ne.mpr h
      simp [setAssoc, List.lookup, hb, h]
  | cons p rest ih =>
    obtain ⟨a, b⟩ := p
    by_cases hak : a = k
    · subst hak
      by_cases h : k' = a
      · simp [setAssoc, List.lookup, h]
      · have hb : (k' == a) = false := beq_eq_false_iff_ne.mpr h
        simp [setAssoc, List.lookup, hb, h]
    · by_cases h : k' = a
      · subst h
        simp only [setAssoc, if_neg hak]
        simp [List.lookup, hak]
      · have hb : (k' == a) = false := beq_eq_false_iff_ne.mpr h
        simp only [setAssoc, if_neg hak]
        simp [List.lookup, hb, ih]

theorem Index.lookupCell_setCell_self (idx : Index) (nm : String) (i : PyVal)
    (key : String) (v : PyVal) :
    (idx.setCell nm i key v).lookupCell nm i key = some v := by
  unfold Index.setCell Index.setRecord Index.lookupCell Index.getRecord
    Index.getNode
  simp [lookup_setAssoc]

theorem Index.lookupCell_setCell_same (idx : Index) (nm : String)
    (i j : PyVal) (key : String) (v : PyVal)
    (h : idx.lookupCell nm j key = some v) :
    (idx.setCell nm i key v).lookupCell nm j key = some v := by
  by_cases hij : j = i
  · subst hij
    exact Index.lookupCell_setCell_self idx nm j key v
  · unfold Index.setCell Index.setRecord
    unfold Index.lookupCell Index.getRecord Index.getNode at h ⊢
    rw [lookup_setAssoc, if_pos rfl, Option.getD_some, lookup_setAssoc,
      if_neg hij]
    exact h

/-! ## C10: links without `requires` fan the single result out -/

theorem store_go_const (nm : String) (t : LinkType) (gl : GLink)
    (key : String) (res : PyVal) :
    ∀ (ids : List PyVal) (idx idx2 : Index),
      store_links_go nm t gl key (ids.map (fun i => (i, res))) idx =
        .ok idx2 →
      (∀ j ∈ ids, ∃ v, link_ref_maker t gl res = .ok v ∧
        idx2.lookupCell nm j key = some v) ∧
      (∀ (j : PyVal) (v : PyVal), link_ref_maker t gl res = .ok v →
        idx.lookupCell nm j key = some v →
        idx2.lookupCell nm j key = some v)
  | [], idx, idx2, h => by
    simp only [List.map_nil, store_links_go, Except.ok.injEq] at h
    subst h
    exact ⟨fun j hj => absurd hj (List.not_mem_nil j), fun j v _ hj => hj⟩
  | i :: rest, idx, idx2, h => by
    simp only [List.map_cons, store_links_go] at h
    cases hmk : link_ref_maker t gl res with
    | error e =>
      rw [hmk] at h
      exact Except.noConfusion h
    | ok v =>
      rw [hmk] at h
      dsimp only at h
      have ih := store_go_const nm t gl key res rest
        (idx.setCell nm i key v) idx2 h
      rw [hmk] at ih
      constructor
      · intro j hj
        rcases List.mem_cons.mp hj with hji | hjr
        · subst hji
          exact ⟨v, rfl, ih.2 j v rfl
            (Index.lookupCell_setCell_self idx nm j key v)⟩
        · exact ih.1 j hjr
      · intro j v2 hmk2 hidx
        have hv2 : v2 = v := by
          injection hmk2 with h2
          exact h2.symm
        subst hv2
        exact ih.2 j v2 rfl
          (Index.lookupCell_setCell_same idx nm i j key v2 hidx)

/-- C10: at a named node, `store_links` for a link whose schema `Link`
has `requires = None` writes, for every id in the ids list, the same
link value built from the single resolver result under the query link's
`index_key` — for `Maybe`/`One` the Reference to the target node at the
result ident (`Maybe` writes `None` only for a `Nothing` result), for
`Many` the list of References over the same ident sequence. -/
theorem c10_no_requires_link_fanout (nm : String) (mems : List NodeMember)
    (graphLink : GLink) (queryLink : QItem) (ids : List PyVal)
    (result : PyVal) (idx idx2 : Index)
    (hreq : graphLink.requires = none)
    (hst : store_links idx ⟨some nm, mems⟩ graphLink queryLink (some ids)
      result = .ok idx2) :
    ∀ i ∈ ids, ∃ v, link_ref_maker graphLink.typeEnum graphLink result =
        .ok v ∧
      idx2.lookupCell nm i queryLink.indexKey = some v ∧
      (graphLink.typeEnum = .maybe → result ≠ .nothing →
        v = .ref graphLink.node result) ∧
      (graphLink.typeEnum = .maybe → result = .nothing → v = .noneV) ∧
      (graphLink.typeEnum = .one → v = .ref graphLink.node result) ∧
      (graphLink.typeEnum = .many → ∃ xs, result.seqElems = some xs ∧
        v = .list (.ofList (xs.map (fun x => .ref graphLink.node x)))) := by
  intro i hi
  unfold store_links at hst
  cases hchk : check_store_links ⟨some nm, mems⟩ graphLink (some ids) result
    with
  | error e =>
    rw [hchk] at hst
    exact Except.noConfusion hst
  | ok u =>
    cases u
    rw [hchk] at hst
    dsimp only at hst
    rw [if_pos hreq] at hst
    have hgo := store_go_const nm graphLink.typeEnum graphLink
      queryLink.indexKey result ids idx idx2 hst
    obtain ⟨v, hmk, hcell⟩ := hgo.1 i hi
    refine ⟨v, hmk, hcell, ?_, ?_, ?_, ?_⟩
    · intro ht hres
      rw [ht] at hmk
      simp only [link_ref_maker, link_ref_maybe, if_neg hres,
        Except.ok.injEq] at hmk
      exact hmk.symm
    · intro ht hres
      rw [ht] at hmk
      simp only [link_ref_maker, link_ref_maybe, if_pos hres,
        Except.ok.injEq] at hmk
      exact hmk.symm
    · intro ht
      rw [ht] at hmk
      simp only [link_ref_maker] at hmk
      unfold link_ref_one at hmk
      split at hmk
      · exact Except.noConfusion hmk
      · injection hmk with h2
        exact h2.symm
    · intro ht
      rw [ht] at hmk
      simp only [link_ref_maker] at hmk
      unfold link_ref_many at hmk
      cases hse : result.seqElems with
      | none =>
        rw [hse] at hmk
        exact Except.noConfusion hmk
      | some xs =>
        rw [hse] at hmk
        injection hmk with h2
        exact ⟨xs, rfl, h2.symm⟩

/-- Witness for C10 at a concrete input: a `Many` link without
`requires` returning `[2]` is fanned out to both ids `0` and `1` as the
same list of References. -/
theorem c10_no_requires_link_fanout_witness :
    ∃ v, link_ref_maker .many ⟨"l", 5, "t", .many, none, []⟩
        (.list (.cons (.int 2) .nil)) = .ok v ∧
      (Index.mk
          [("u", [(PyVal.int 0,
              [("l", PyVal.list (.cons (.ref "t" (.int 2)) .nil))]),
            (PyVal.int 1,
              [("l", PyVal.list (.cons (.ref "t" (.int 2)) .nil))])])]
          []).lookupCell "u" (.int 0) "l" = some v ∧
      (Index.mk
          [("u", [(PyVal.int 0,
              [("l", PyVal.list (.cons (.ref "t" (.int 2)) .nil))]),
            (PyVal.int 1,
              [("l", PyVal.list (.cons (.ref "t" (.int 2)) .nil))])])]
          []).lookupCell "u" (.int 1) "l" = some v := by
  have hst : store_links ⟨[], []⟩ ⟨some "u", []⟩
      ⟨"l", 5, "t", .many, none, []⟩
      (.qlink "l" none "l" (.mk false .nil) none)
      (some [.int 0, .int 1]) (.list (.cons (.int 2) .nil)) =
      .ok (Index.mk
        [("u", [(PyVal.int 0,
            [("l", PyVal.list (.cons (.ref "t" (.int 2)) .nil))]),
          (PyVal.int 1,
            [("l", PyVal.list (.cons (.ref "t" (.int 2)) .nil))])])]
        []) := rfl
  have h0 := c10_no_requires_link_fanout "u" [] ⟨"l", 5, "t", .many, none, []⟩
    (.qlink "l" none "l" (.mk false .nil) none) [.int 0, .int 1]
    (.list (.cons (.int 2) .nil)) ⟨[], []⟩ _ rfl hst (.int 0) (by simp)
  have h1 := c10_no_requires_link_fanout "u" [] ⟨"l", 5, "t", .many, none, []⟩
    (.qlink "l" none "l" (.mk false .nil) none) [.int 0, .int 1]
    (.list (.cons (.int 2) .nil)) ⟨[], []⟩ _ rfl hst (.int 1) (by simp)
  obtain ⟨v0, hmk0, hc0, _⟩ := h0
  obtain ⟨v1, hmk1, hc1, _⟩ := h1
  have hv : v1 = v0 := by
    rw [hmk0] at hmk1
    injection hmk1 with h2
    exact h2.symm
  subst hv
  exact ⟨v1, hmk0, hc0, hc1⟩


/-! ## C6: link ident validation (Maybe/One with `requires`) -/

theorem hashable_hint_cases : ∀ (v : PyVal) (hint : String),
    hashable_hint v = .ok hint → hint = HASH_HINT ∨ hint = DATACLASS_HINT
  | .nothing, hint, h => by
    simp only [hashable_hint, Except.ok.injEq] at h
    exact Or.inl h.symm
  | .noneV, hint, h => by
    simp only [hashable_hint, Except.ok.injEq] at h
    exact Or.inl h.symm
  | .bool b, hint, h => by
    simp only [hashable_hint, Except.ok.injEq] at h
    exact Or.inl h.symm
  | .int n, hint, h => by
    simp only [hashable_hint, Except.ok.injEq] at h
    exact Or.inl h.symm
  | .ref n i, hint, h => by
    simp only [hashable_hint, Except.ok.injEq] at h
    exact Or.inl h.symm
  | .dict entries, hint, h => by
    simp only [hashable_hint, Except.ok.injEq] at h
    exact Or.inl h.symm
  | .str sv, hint, h => by
    simp only [hashable_hint] at h
    exact Except.noConfusion h
  | .dataclassObj frozen fs, hint, h => by
    simp only [hashable_hint] at h
    split at h
    · injection h with h2
      exact Or.inl h2.symm
    · injection h with h2
      exact Or.inr h2.symm
  | .tuple .nil, hint, h => by
    simp only [hashable_hint] at h
    exact Except.noConfusion h
  | .tuple (.cons x xs), hint, h => by
    rw [hashable_hint] at h
    exact hashable_hint_cases x hint h
  | .list .nil, hint, h => by
    simp only [hashable_hint] at h
    exact Except.noConfusion h
  | .list (.cons x xs), hint, h => by
    rw [hashable_hint] at h
    exact hashable_hint_cases x hint h

/-- C6 (amended): storing a `Maybe`/`One` link result at a named node
with `requires` succeeds exactly when the result is a sequence of
`len(ids)` hashable idents.  When a well-sized sequence contains an
unhashable ident, the validation produces the unhashable-ident error
with the hint computed by `_hashable_hint` — which is always the
generic `__hash__` hint or the frozen-dataclass hint — except that when
the hint computation's first-element descent reaches an empty sequence
or a string, the corresponding `IndexError`/`RecursionError` escapes
instead of the hinted error. -/
theorem c6_unhashable_ident_amended (nm : String) (mems : List NodeMember)
    (gl : GLink) (r : String) (ids : List PyVal) (result : PyVal)
    (hreq : gl.requires = some r)
    (ht : gl.typeEnum = .maybe ∨ gl.typeEnum = .one) :
    (check_store_links ⟨some nm, mems⟩ gl (some ids) result = .ok () ↔
      ∃ xs, result.seqElems = some xs ∧ xs.length = ids.length ∧
        ∀ x ∈ xs, x.isHashable = true) ∧
    (∀ xs, result.seqElems = some xs → xs.length = ids.length →
      (¬ ∀ x ∈ xs, x.isHashable = true) →
      check_store_links ⟨some nm, mems⟩ gl (some ids) result =
        (match hashable_hint result with
        | .ok hint =>
          .error (.linkShape nm gl.name "list of hashable objects" result
            hint)
        | .error e => .error e)) ∧
    (∀ hint, hashable_hint result = .ok hint →
      hint = HASH_HINT ∨ hint = DATACLASS_HINT) := by
  obtain ⟨ln, lf, lnd, lt, lreq, lo⟩ := gl
  simp only at hreq ht
  subst hreq
  have main : ∀ hlt : lt = LinkType.maybe ∨ lt = LinkType.one,
      (check_store_links ⟨some nm, mems⟩ ⟨ln, lf, lnd, lt, some r, lo⟩
          (some ids) result = .ok () ↔
        ∃ xs, result.seqElems = some xs ∧ xs.length = ids.length ∧
          ∀ x ∈ xs, x.isHashable = true) ∧
      (∀ xs, result.seqElems = some xs → xs.length = ids.length →
        (¬ ∀ x ∈ xs, x.isHashable = true) →
        check_store_links ⟨some nm, mems⟩ ⟨ln, lf, lnd, lt, some r, lo⟩
            (some ids) result =
          (match hashable_hint result with
          | .ok hint =>
            .error (.linkShape nm ln "list of hashable objects" result hint)
          | .error e => .error e)) := by
    intro hlt
    have hbody : check_store_links ⟨some nm, mems⟩
        ⟨ln, lf, lnd, lt, some r, lo⟩ (some ids) result =
        (match result.seqElems with
        | some xs =>
          if xs.length = ids.length then
            if xs.all PyVal.isHashable then .ok ()
            else
              match hashable_hint result with
              | .ok hint =>
                .error (.linkShape nm ln "list of hashable objects" result
                  hint)
              | .error e => .error e
          else .error (.linkShape nm ln (linkLenExpected ids.length) result "")
        | none =>
          .error (.linkShape nm ln (linkLenExpected ids.length) result "")) := by
      rcases hlt with hlt | hlt <;> subst hlt <;> rfl
    rw [hbody]
    constructor
    · cases hse : result.seqElems with
      | none =>
        constructor
        · intro h
          exact Except.noConfusion h
        · rintro ⟨xs, hxs, _⟩
          exact Option.noConfusion hxs
      | some xs =>
        constructor
        · intro h
          dsimp only at h
          by_cases hlen : xs.length = ids.length
          · rw [if_pos hlen] at h
            by_cases hall : xs.all PyVal.isHashable
            · exact ⟨xs, rfl, hlen, by simpa [List.all_eq_true] using hall⟩
            · rw [if_neg hall] at h
              split at h
              · exact Except.noConfusion h
              · exact Except.noConfusion h
          · rw [if_neg hlen] at h
            exact Except.noConfusion h
        · rintro ⟨xs2, hxs2, hlen, hall⟩
          have hx : xs2 = xs := by
            injection hxs2 with h2
            exact h2.symm
          subst hx
          dsimp only
          rw [if_pos hlen, if_pos (by simpa [List.all_eq_true] using hall)]
    · intro xs hse hlen hnall
      rw [hse]
      dsimp only
      rw [if_pos hlen, if_neg (by simpa [List.all_eq_true] using hnall)]
  rcases ht with ht | ht <;> subst ht
  · exact ⟨(main (Or.inl rfl)).1, (main (Or.inl rfl)).2,
      fun hint hh => hashable_hint_cases result hint hh⟩
  · exact ⟨(main (Or.inr rfl)).1, (main (Or.inr rfl)).2,
      fun hint hh => hashable_hint_cases result hint hh⟩

/-- Counterexample to C6 as stated: for a `Maybe` link with `requires`
at node `"x"`, ids `[1]` and the well-sized result `[[]]` — which
contains the non-hashable ident `[]` — validation does not fail with
the hinted unhashable-ident error: the hint computation indexes
`[][0]` and an `IndexError` escapes instead. -/
theorem c6_unhashable_ident_counterexample :
    check_store_links ⟨some "x", []⟩ ⟨"l", 0, "t", .maybe, some "r", []⟩
        (some [.int 1]) (.list (.cons (.list .nil) .nil)) =
      .error .indexError ∧
    isLinkShapeError (check_store_links ⟨some "x", []⟩
        ⟨"l", 0, "t", .maybe, some "r", []⟩ (some [.int 1])
        (.list (.cons (.list .nil) .nil))) = false := by
  exact ⟨rfl, rfl⟩

/-- Witness for the amended C6 at a concrete input: a `One` link result
of the right length whose second ident is a list fails with the
unhashable-ident error carrying the `__hash__` hint. -/
theorem c6_unhashable_ident_amended_witness :
    check_store_links ⟨some "u", []⟩ ⟨"l", 0, "t", .one, some "r", []⟩
        (some [.int 1, .int 2])
        (.list (.cons (.int 1) (.cons (.list .nil) .nil))) =
      .error (.linkShape "u" "l" "list of hashable objects"
        (.list (.cons (.int 1) (.cons (.list .nil) .nil))) HASH_HINT) := by
  have h := c6_unhashable_ident_amended "u" [] ⟨"l", 0, "t", .one, some "r", []⟩
    "r" [.int 1, .int 2] (.list (.cons (.int 1) (.cons (.list .nil) .nil)))
    rfl (Or.inr rfl)
  have h2 := h.2.1 [.int 1, .list .nil] rfl rfl (by decide)
  rw [h2]
  rfl


/-! ## C1: batching by resolver identity -/

theorem splitGo_resolvers (node : GNode) : ∀ (items : List QItem)
    (acc : List FTriple × List LPair) (fields : List FTriple)
    (links : List LPair),
    splitGo node acc items = .ok (fields, links) →
    ∃ df dl, fields = acc.1 ++ df ∧ links = acc.2 ++ dl ∧
      scheduledResolvers node items = .ok (df.map Prod.fst)
  | [], acc, fields, links, h => by
    injection h with h2
    subst h2
    exact ⟨[], [], by simp, by simp, rfl⟩
  | item :: rest, acc, fields, links, h => by
    rw [splitGo] at h
    cases item with
    | qfield name o ik =>
      cases hm : node.fieldsMap name with
      | none =>
        simp only [splitStep, hm] at h
        exact Except.noConfusion h
      | some m =>
        simp only [splitStep, hm] at h
        obtain ⟨df, dl, hf, hl, hs⟩ :=
          splitGo_resolvers node rest _ _ _ h
        refine ⟨(m.effFunc, m, .qfield name o ik) :: df, dl, ?_, ?_, ?_⟩
        · rw [hf]
          simp
        · rw [hl]
        · simp only [scheduledResolvers, hm, hs, List.map_cons]
    | qlink name o ik qn ct =>
      cases hm : node.fieldsMap name with
      | none =>
        simp only [splitStep, hm] at h
        exact Except.noConfusion h
      | some mem =>
        cases mem with
        | link gl =>
          cases hr : gl.requires with
          | some r =>
            cases hmr : node.fieldsMap r with
            | none =>
              simp only [splitStep, hm, hr, hmr] at h
              exact Except.noConfusion h
            | some mr =>
              simp only [splitStep, hm, hr, hmr] at h
              obtain ⟨df, dl, hf, hl, hs⟩ :=
                splitGo_resolvers node rest _ _ _ h
              refine ⟨(mr.effFunc, mr, .qfield r none r) :: df,
                (gl, .qlink name o ik qn ct) :: dl, ?_, ?_, ?_⟩
              · rw [hf]
                simp
              · rw [hl]
                simp
              · simp only [scheduledResolvers, hm, hr, hmr, hs, List.map_cons]
          | none =>
            simp only [splitStep, hm, hr] at h
            obtain ⟨df, dl, hf, hl, hs⟩ :=
              splitGo_resolvers node rest _ _ _ h
            refine ⟨df, (gl, .qlink name o ik qn ct) :: dl, hf, ?_, ?_⟩
            · rw [hl]
              simp
            · simp only [scheduledResolvers, hm, hr, hs]
        | field gf =>
          simp only [splitStep, hm] at h
          obtain ⟨df, dl, hf, hl, hs⟩ :=
            splitGo_resolvers node rest _ _ _ h
          refine ⟨((NodeMember.field gf).effFunc, .field gf,
            .qlink name o ik qn ct) :: df, dl, ?_, ?_, ?_⟩
          · rw [hf]
            simp
          · rw [hl]
          · simp only [scheduledResolvers, hm, hs, List.map_cons]

theorem groupInsert_keys (acc : List (Nat × List (NodeMember × QItem)))
    (t : FTriple) :
    (groupInsert acc t).map Prod.fst =
      if t.1 ∈ acc.map Prod.fst then acc.map Prod.fst
      else acc.map Prod.fst ++ [t.1] := by
  unfold groupInsert
  by_cases hmem : t.1 ∈ acc.map Prod.fst
  · rw [if_pos (lookup_isSome_iff.mpr hmem), if_pos hmem, List.map_map]
    apply List.map_congr_left
    intro g _
    by_cases hg : g.1 = t.1
    · simp [hg]
    · simp [hg]
  · rw [if_neg (fun hs => hmem (lookup_isSome_iff.mp hs)), if_neg hmem]
    simp

theorem groupFold_keys : ∀ (l : List FTriple)
    (acc : List (Nat × List (NodeMember × QItem))),
    (acc.map Prod.fst).Nodup →
    ((l.foldl groupInsert acc).map Prod.fst).Nodup ∧
    ((l.foldl groupInsert acc).map Prod.fst).toFinset =
      (acc.map Prod.fst).toFinset ∪ (l.map Prod.fst).toFinset
  | [], acc, hnd => ⟨hnd, by simp⟩
  | t :: rest, acc, hnd => by
    rw [List.foldl_cons]
    have hkeys := groupInsert_keys acc t
    by_cases hmem : t.1 ∈ acc.map Prod.fst
    · rw [if_pos hmem] at hkeys
      have ih := groupFold_keys rest (groupInsert acc t)
        (by rw [hkeys]; exact hnd)
      refine ⟨ih.1, ?_⟩
      rw [ih.2, hkeys]
      ext x
      simp only [Finset.mem_union, List.mem_toFinset, List.map_cons,
        List.mem_cons]
      constructor
      · rintro (hx | hx)
        · exact Or.inl hx
        · exact Or.inr (Or.inr hx)
      · rintro (hx | hx | hx)
        · exact Or.inl hx
        · exact Or.inl (hx ▸ hmem)
        · exact Or.inr hx
    · rw [if_neg hmem] at hkeys
      have hnd2 : ((groupInsert acc t).map Prod.fst).Nodup := by
        rw [hkeys]
        simp only [List.nodup_append, List.nodup_cons, List.not_mem_nil,
          not_false_iff, List.nodup_nil, and_true, true_and]
        constructor
        · exact hnd
        · intro a ha hb
          simp only [List.mem_singleton] at hb
          exact hmem (hb ▸ ha)
      have ih := groupFold_keys rest (groupInsert acc t) hnd2
      refine ⟨ih.1, ?_⟩
      rw [ih.2, hkeys]
      ext x
      simp only [Finset.mem_union, List.mem_toFinset, List.mem_append,
        List.map_cons, List.mem_cons, List.mem_singleton]
      tauto

theorem groupByFunc_length (fields : List FTriple) :
    (groupByFunc fields).length = (fields.map Prod.fst).toFinset.card := by
  have h := groupFold_keys fields [] (by simp)
  unfold groupByFunc
  rw [← List.length_map (fields.foldl groupInsert []) Prod.fst,
    ← List.toFinset_card_of_nodup h.1, h.2]
  simp

/-- C1 (amended): in the unordered branch of `process_node`, the number
of field-resolver invocations (one `_schedule_fields` call per group)
equals the number of distinct resolver identities across the node's
QueryFields, complex QueryLinks, AND the `QueryField(link.requires)`
entries `SplitQuery` synthesizes for every link declaring `requires` —
`scheduledResolvers` lists exactly those resolver identities in query
order. -/
theorem c1_batching_amended (node : GNode) (q : QNode)
    (fields : List FTriple) (links : List LPair)
    (hsplit : splitQuery node q = .ok (fields, links)) :
    processNodeUnorderedFieldGroups node q = .ok (groupByFunc fields) ∧
    scheduledResolvers node q.items = .ok (fields.map Prod.fst) ∧
    (groupByFunc fields).length = (fields.map Prod.fst).toFinset.card := by
  refine ⟨?_, ?_, groupByFunc_length fields⟩
  · unfold processNodeUnorderedFieldGroups
    rw [hsplit]
  · obtain ⟨df, dl, hf, hl, hs⟩ :=
      splitGo_resolvers node q.items ([], []) fields links hsplit
    simp only [List.nil_append] at hf hl
    subst hf
    exact hs

/-- Counterexample to C1 as stated: a node whose query consists of one
plain link with `requires = "r"` has zero distinct resolver identities
across its QueryFields/complex-QueryLinks, yet `process_node` performs
one field-resolver invocation (for the synthesized requires-field of
the link). -/
theorem c1_batching_counterexample :
    (processNodeUnorderedFieldGroups
        ⟨some "p", [.field ⟨"r", 7, none, []⟩,
          .link ⟨"company", 9, "c", .one, some "r", []⟩]⟩
        (.mk false (.cons (.qlink "company" none "company" (.mk false .nil)
          none) .nil))).map List.length ≠
      (queryItemResolvers
        ⟨some "p", [.field ⟨"r", 7, none, []⟩,
          .link ⟨"company", 9, "c", .one, some "r", []⟩]⟩
        (QNode.mk false (.cons (.qlink "company" none "company"
          (.mk false .nil) none) .nil)).items).map
        (fun l => l.toFinset.card) ∧
    (processNodeUnorderedFieldGroups
        ⟨some "p", [.field ⟨"r", 7, none, []⟩,
          .link ⟨"company", 9, "c", .one, some "r", []⟩]⟩
        (.mk false (.cons (.qlink "company" none "company" (.mk false .nil)
          none) .nil))).map List.length = .ok 1 ∧
    (queryItemResolvers
        ⟨some "p", [.field ⟨"r", 7, none, []⟩,
          .link ⟨"company", 9, "c", .one, some "r", []⟩]⟩
        (QNode.mk false (.cons (.qlink "company" none "company"
          (.mk false .nil) none) .nil)).items).map
        (fun l => l.toFinset.card) = .ok 0 := by
  refine ⟨?_, by decide, by decide⟩
  decide

/-- Witness for the amended C1 at a concrete input: a query with two
fields sharing resolver `7`, one complex link on resolver `8`, and a
plain link requiring `"r"` (also resolver `7`) schedules exactly two
field groups — the two distinct resolver identities. -/
theorem c1_batching_amended_witness :
    processNodeUnorderedFieldGroups
        ⟨some "p", [.field ⟨"r", 7, none, []⟩, .field ⟨"a", 7, none, []⟩,
          .field ⟨"c", 8, none, []⟩,
          .link ⟨"company", 9, "co", .one, some "r", []⟩]⟩
        (.mk false (.cons (.qfield "r" none "r")
          (.cons (.qfield "a" none "a")
            (.cons (.qfield "c" none "c")
              (.cons (.qlink "company" none "company" (.mk false .nil) none)
                .nil))))) =
      .ok (groupByFunc [(7, .field ⟨"r", 7, none, []⟩, .qfield "r" none "r"),
        (7, .field ⟨"a", 7, none, []⟩, .qfield "a" none "a"),
        (8, .field ⟨"c", 8, none, []⟩, .qfield "c" none "c"),
        (7, .field ⟨"r", 7, none, []⟩, .qfield "r" none "r")]) ∧
    (groupByFunc [(7, .field ⟨"r", 7, none, []⟩, .qfield "r" none "r"),
        (7, .field ⟨"a", 7, none, []⟩, .qfield "a" none "a"),
        (8, .field ⟨"c", 8, none, []⟩, .qfield "c" none "c"),
        (7, .field ⟨"r", 7, none, []⟩, .qfield "r" none "r")]).length =
      ([(7 : Nat), 7, 8, 7].toFinset.card) := by
  have h := c1_batching_amended
    ⟨some "p", [.field ⟨"r", 7, none, []⟩, .field ⟨"a", 7, none, []⟩,
      .field ⟨"c", 8, none, []⟩,
      .link ⟨"company", 9, "co", .one, some "r", []⟩]⟩
    (.mk false (.cons (.qfield "r" none "r")
      (.cons (.qfield "a" none "a")
        (.cons (.qfield "c" none "c")
          (.cons (.qlink "company" none "company" (.mk false .nil) none)
            .nil)))))
    [(7, .field ⟨"r", 7, none, []⟩, .qfield "r" none "r"),
      (7, .field ⟨"a", 7, none, []⟩, .qfield "a" none "a"),
      (8, .field ⟨"c", 8, none, []⟩, .qfield "c" none "c"),
      (7, .field ⟨"r", 7, none, []⟩, .qfield "r" none "r")]
    [(⟨"company", 9, "co", .one, some "r", []⟩,
      .qlink "company" none "company" (.mk false .nil) none)]
    (by decide)
  exact ⟨h.1, h.2.2⟩


/-! ## C2: links with `requires` run after their field resolver -/

theorem setAssoc_values_subset {α β : Type} [DecidableEq α] :
    ∀ (l : List (α × β)) (k : α) (v x : β),
      x ∈ (setAssoc l k v).map Prod.snd → x ∈ l.map Prod.snd ∨ x = v
  | [], k, v, x, h => by
    simp [setAssoc] at h
    exact Or.inr h
  | (a, b) :: rest, k, v, x, h => by
    rw [setAssoc] at h
    split at h
    · simp only [List.map_cons, List.mem_cons] at h ⊢
      rcases h with h | h
      · exact Or.inr h
      · exact Or.inl (Or.inr h)
    · simp only [List.map_cons, List.mem_cons] at h ⊢
      rcases h with h | h
      · exact Or.inl (Or.inl h)
      · rcases setAssoc_values_subset rest k v x h with h2 | h2
        · exact Or.inl (Or.inr h2)
        · exact Or.inr h2

theorem foldSet_lookup_values : ∀ (l : List FTriple)
    (acc : List (String × Nat)) (r : String) (f : Nat),
    ((l.foldl (fun acc t => setAssoc acc t.2.1.name t.1) acc).lookup r =
      some f) →
    f ∈ acc.map Prod.snd ∨ f ∈ l.map Prod.fst
  | [], acc, r, f, h =>
    Or.inl (List.mem_map.mpr ⟨(r, f), mem_of_lookup_eq_some h, rfl⟩)
  | t :: rest, acc, r, f, h => by
    rw [List.foldl_cons] at h
    rcases foldSet_lookup_values rest _ r f h with hv | hv
    · rcases setAssoc_values_subset acc t.2.1.name t.1 f hv with h2 | h2
      · exact Or.inl h2
      · exact Or.inr (by simp [h2])
    · exact Or.inr (List.mem_cons_of_mem _ hv)

theorem toFuncMap_lookup_mem (fields : List FTriple) (r : String) (f : Nat)
    (h : (toFuncMap fields).lookup r = some f) :
    f ∈ fields.map Prod.fst := by
  rcases foldSet_lookup_values fields [] r f h with hv | hv
  · simp at hv
  · exact hv

theorem mem_distinctFuncs (fields : List FTriple) (f : Nat) :
    f ∈ distinctFuncs fields ↔ f ∈ fields.map Prod.fst := by
  have h := (groupFold_keys fields [] (by simp)).2
  unfold distinctFuncs groupByFunc
  rw [← List.mem_toFinset, h]
  simp

/-- C2: in the trace of one unordered `process_node` under any
completion order `σ` of the field groups, a link whose schema `Link`
declares `requires = r` is submitted strictly after the event that
stores the result of the field group resolving `r` (the store callback
registered before the link-scheduling callback on the same submission);
a link without `requires` is submitted in the initial segment of the
trace, before any field group's store event. -/
theorem c2_requires_dependency (node : GNode) (q : QNode)
    (fields : List FTriple) (links : List LPair) (σ : List Nat)
    (gl : GLink) (ql : QItem)
    (hsplit : splitQuery node q = .ok (fields, links))
    (hperm : σ.Perm (distinctFuncs fields))
    (hmem : (gl, ql) ∈ links) :
    (∀ r f, gl.requires = some r → (toFuncMap fields).lookup r = some f →
      Precedes (.fieldStored f) (.linkSubmitted ql)
        (nodeTrace fields links σ)) ∧
    (gl.requires = none →
      ∃ l1 l2, nodeTrace fields links σ = l1 ++ .linkSubmitted ql :: l2 ∧
        ∀ e ∈ l1, ∀ g, e ≠ .fieldStored g) := by
  constructor
  · intro r f hr hf
    have hfin : f ∈ fields.map Prod.fst := toFuncMap_lookup_mem fields r f hf
    have hσ : f ∈ σ := hperm.mem_iff.mpr ((mem_distinctFuncs fields f).mpr hfin)
    obtain ⟨σ1, σ2, hσeq⟩ := List.append_of_mem hσ
    have hql : (gl, ql) ∈ linksAttachedTo fields links f := by
      unfold linksAttachedTo
      rw [List.mem_filter]
      refine ⟨hmem, ?_⟩
      simp [hr, hf]
    have hevm : Ev.linkSubmitted ql ∈
        (linksAttachedTo fields links f).map (fun p => Ev.linkSubmitted p.2) :=
      List.mem_map_of_mem (fun p => Ev.linkSubmitted p.2) hql
    obtain ⟨m1, m2, hmeq⟩ := List.append_of_mem hevm
    refine ⟨(immediateLinks links).map (fun p => Ev.linkSubmitted p.2) ++
      (σ1.map (fun fg =>
        Ev.fieldStored fg ::
          (linksAttachedTo fields links fg).map
            (fun p => Ev.linkSubmitted p.2))).flatten,
      m1, m2 ++
      (σ2.map (fun fg =>
        Ev.fieldStored fg ::
          (linksAttachedTo fields links fg).map
            (fun p => Ev.linkSubmitted p.2))).flatten, ?_⟩
    unfold nodeTrace
    rw [hσeq, List.map_append, List.map_cons, List.flatten_append,
      List.flatten_cons, hmeq]
    simp [List.append_assoc]
  · intro hr
    have himm : (gl, ql) ∈ immediateLinks links := by
      unfold immediateLinks
      rw [List.mem_filter]
      refine ⟨hmem, ?_⟩
      simp [hr]
    have hevm : Ev.linkSubmitted ql ∈
        (immediateLinks links).map (fun p => Ev.linkSubmitted p.2) :=
      List.mem_map_of_mem (fun p => Ev.linkSubmitted p.2) himm
    obtain ⟨m1, m2, hmeq⟩ := List.append_of_mem hevm
    refine ⟨m1, m2 ++
      (σ.map (fun fg =>
        Ev.fieldStored fg ::
          (linksAttachedTo fields links fg).map
            (fun p => Ev.linkSubmitted p.2))).flatten, ?_, ?_⟩
    · unfold nodeTrace
      rw [hmeq]
      simp [List.append_assoc]
    · intro e he g
      have hem : e ∈ (immediateLinks links).map
          (fun p => Ev.linkSubmitted p.2) := by
        rw [hmeq]
        exact List.mem_append_left _ he
      obtain ⟨p, _, hpe⟩ := List.mem_map.mp hem
      rw [← hpe]
      intro hcontra
      exact Ev.noConfusion hcontra

/-- Witness for C2 at a concrete input: node with field `r` (resolver
7) and link `company` requiring `r`, query selecting `r` and `company`,
completion order `[7]`: the trace stores field group 7 before
submitting the link, and an additional requires-free link `tags` is
submitted before any store event. -/
theorem c2_requires_dependency_witness :
    Precedes (.fieldStored 7)
      (.linkSubmitted (.qlink "company" none "company" (.mk false .nil)
        none))
      (nodeTrace
        [(7, .field ⟨"r", 7, none, []⟩, .qfield "r" none "r"),
          (7, .field ⟨"r", 7, none, []⟩, .qfield "r" none "r")]
        [(⟨"tags", 3, "tg", .many, none, []⟩,
          .qlink "tags" none "tags" (.mk false .nil) none),
          (⟨"company", 9, "co", .one, some "r", []⟩,
          .qlink "company" none "company" (.mk false .nil) none)]
        [7]) := by
  have h := c2_requires_dependency
    ⟨some "p", [.field ⟨"r", 7, none, []⟩,
      .link ⟨"tags", 3, "tg", .many, none, []⟩,
      .link ⟨"company", 9, "co", .one, some "r", []⟩]⟩
    (.mk false (.cons (.qfield "r" none "r")
      (.cons (.qlink "tags" none "tags" (.mk false .nil) none)
        (.cons (.qlink "company" none "company" (.mk false .nil) none)
          .nil))))
    [(7, .field ⟨"r", 7, none, []⟩, .qfield "r" none "r"),
      (7, .field ⟨"r", 7, none, []⟩, .qfield "r" none "r")]
    [(⟨"tags", 3, "tg", .many, none, []⟩,
      .qlink "tags" none "tags" (.mk false .nil) none),
      (⟨"company", 9, "co", .one, some "r", []⟩,
      .qlink "company" none "company" (.mk false .nil) none)]
    [7]
    ⟨"company", 9, "co", .one, some "r", []⟩
    (.qlink "company" none "company" (.mk false .nil) none)
    (by decide) (by decide) (by decide)
  exact h.1 "r" 7 rfl (by decide)


/-! ## C8: cached link scheduling partitions ids by cache hit -/

theorem get_cached_link_ids_spec (sha1 : List String → String)
    (pyhash : PyVal → Int) (cache : List (String × PyVal)) (ql : QItem) :
    ∀ reqs : List PyVal,
      get_cached_link_ids sha1 pyhash cache ql reqs =
        (reqs.filter (fun v =>
          (cache.lookup (get_query_hash sha1 pyhash ql v)).isSome),
        (reqs.filter (fun v =>
          (cache.lookup (get_query_hash sha1 pyhash ql v)).isSome)).map
          (fun v =>
            (cache.lookup (get_query_hash sha1 pyhash ql v)).getD .noneV),
        reqs.filter (fun v =>
          !((cache.lookup (get_query_hash sha1 pyhash ql v)).isSome)))
  | [] => rfl
  | req :: rest => by
    rw [get_cached_link_ids,
      get_cached_link_ids_spec sha1 pyhash cache ql rest]
    cases hl : cache.lookup (get_query_hash sha1 pyhash ql req) with
    | some data => simp [List.filter_cons, hl]
    | none => simp [List.filter_cons, hl]

theorem req_values_spec (idx : Index) (nm req : String) :
    ∀ (ids vals : List PyVal), req_values idx nm req ids = .ok vals →
      vals = ids.map (fun i => (idx.lookupCell nm i req).getD .noneV)
  | [], vals, h => by
    injection h with h2
    simp [h2.symm]
  | i :: rest, vals, h => by
    rw [req_values] at h
    cases hl : idx.lookupCell nm i req with
    | none =>
      rw [hl] at h
      exact Except.noConfusion h
    | some v =>
      rw [hl] at h
      dsimp only at h
      cases hr : req_values idx nm req rest with
      | error e =>
        rw [hr] at h
        exact Except.noConfusion h
      | ok tail =>
        rw [hr] at h
        injection h with h2
        rw [← h2]
        simp [req_values_spec idx nm req rest tail hr, hl]

theorem zip_map_filter (f : PyVal → PyVal) (pred : PyVal × PyVal → Bool) :
    ∀ idsL : List PyVal,
      ((idsL.zip (idsL.map f)).filter pred).map Prod.fst =
        idsL.filter (fun i => pred (i, f i))
  | [] => rfl
  | i :: rest => by
    simp only [List.map_cons, List.zip_cons_cons, List.filter_cons]
    by_cases hp : pred (i, f i)
    · simp [hp, zip_map_filter f pred rest]
    · simp [hp, zip_map_filter f pred rest]

theorem pyval_contains_iff_mem (l : List PyVal) (a : PyVal) :
    l.contains a = true ↔ a ∈ l := by
  induction l with
  | nil => simp
  | cons x xs ih =>
    simp only [List.contains_cons, Bool.or_eq_true, beq_iff_eq,
      List.mem_cons] at ih ⊢
    constructor
    · rintro (h | h)
      · exact Or.inl h
      · exact Or.inr (ih.mp h)
    · rintro (h | h)
      · exact Or.inl h
      · exact Or.inr (ih.mpr h)

theorem link_reqs_named (idx : Index) (nm : String) (mems : List NodeMember)
    (gl : GLink) (r : String) (idsL : List PyVal) (v : PyVal)
    (hreq : gl.requires = some r)
    (h : link_reqs idx ⟨some nm, mems⟩ gl (some idsL) = .ok v) :
    v = .list (.ofList (idsL.map
      (fun i => (idx.lookupCell nm i r).getD .noneV))) := by
  unfold link_reqs at h
  rw [hreq] at h
  simp only [Option.getD_some] at h
  cases hrv : req_values idx nm r idsL with
  | error e =>
    rw [hrv] at h
    exact Except.noConfusion h
  | ok vals =>
    rw [hrv] at h
    injection h with h2
    rw [← h2, req_values_spec idx nm r idsL vals hrv]

/-- C8: scheduling a link carrying the `cached` directive with a
configured cache partitions the ids by whether their requires-value has
a cache hit: the resolver's first argument is exactly the uncached
requires-values in original order, the cache-hit payloads (and only
those) are handed to `update_index` under the cache-hit ids, and the
cache-hit ids are excluded from the ids the completion callback passes
to `process_link` (and hence from the recursive `process_node` call
made there). -/
theorem c8_cached_link_partition (sha1 : List String → String)
    (pyhash : PyVal → Int) (g : Graph) (idx : Index) (nm : String)
    (mems : List NodeMember) (gl : GLink) (ql : QItem) (idsL : List PyVal)
    (c : List (String × PyVal)) (r : String) (t : Nat)
    (run : ScheduleLinkRun) (reqOf : PyVal → PyVal) (hit : PyVal → Bool)
    (hreq : gl.requires = some r)
    (httl : ql.cachedTtl = some t)
    (hreqOf : reqOf = fun i => (idx.lookupCell nm i r).getD .noneV)
    (hhit : hit = fun v =>
      (c.lookup (get_query_hash sha1 pyhash ql v)).isSome)
    (hrun : schedule_link sha1 pyhash g idx ⟨some nm, mems⟩ gl ql
      (some idsL) (some c) = .ok run) :
    run.args.head? = some (.list (.ofList
      ((idsL.map reqOf).filter (fun v => !(hit v))))) ∧
    run.cachedIds = idsL.filter (fun i => hit (reqOf i)) ∧
    run.callbackIds = some (idsL.filter (fun i => !(hit (reqOf i)))) ∧
    run.cachedData = ((idsL.map reqOf).filter hit).map
      (fun v => (c.lookup (get_query_hash sha1 pyhash ql v)).getD .noneV) ∧
    ((run.cachedData = [] ∧ run.indexAfter = idx) ∨
      update_index g ⟨some nm, mems⟩ run.cachedIds run.cachedData idx =
        .ok run.indexAfter) := by
  subst hreqOf
  subst hhit
  unfold schedule_link at hrun
  cases hprep : schedule_link_prepare sha1 pyhash g idx ⟨some nm, mems⟩ gl ql
    (some idsL) (some c) with
  | error e =>
    rw [hprep] at hrun
    exact Except.noConfusion hrun
  | ok quad =>
    obtain ⟨args0, cachedIds, cachedData, idx1⟩ := quad
    rw [hprep] at hrun
    dsimp only at hrun
    injection hrun with hrun2
    subst hrun2
    unfold schedule_link_prepare at hprep
    rw [hreq] at hprep
    dsimp only at hprep
    cases hlr : link_reqs idx ⟨some nm, mems⟩ gl (some idsL) with
    | error e =>
      rw [hlr] at hprep
      exact Except.noConfusion hprep
    | ok reqsVal =>
      have hv := link_reqs_named idx nm mems gl r idsL reqsVal hreq hlr
      rw [hlr, httl] at hprep
      dsimp only at hprep
      rw [hv] at hprep
      simp only [PyVal.seqElems, PyVals.toList_ofList,
        get_cached_link_ids_spec] at hprep
      have hcids : ((idsL.zip (idsL.map
          (fun i => (idx.lookupCell nm i r).getD .noneV))).filter
          (fun p => (((idsL.map
            (fun i => (idx.lookupCell nm i r).getD .noneV)).filter
            (fun v => (c.lookup
              (get_query_hash sha1 pyhash ql v)).isSome)).contains
            p.2))).map Prod.fst =
          idsL.filter (fun i => (c.lookup (get_query_hash sha1 pyhash ql
            ((idx.lookupCell nm i r).getD .noneV))).isSome) := by
        rw [zip_map_filter]
        apply List.filter_congr
        intro i hi
        by_cases hP : (c.lookup (get_query_hash sha1 pyhash ql
            ((idx.lookupCell nm i r).getD .noneV))).isSome
        · rw [hP]
          exact (pyval_contains_iff_mem _ _).mpr
            (List.mem_filter.mpr
              ⟨List.mem_map_of_mem _ hi, hP⟩)
        · have hP2 : (c.lookup (get_query_hash sha1 pyhash ql
              ((idx.lookupCell nm i r).getD .noneV))).isSome = false :=
            Bool.eq_false_iff.mpr hP
          rw [hP2]
          exact Bool.eq_false_iff.mpr (fun hcon => hP
            (List.mem_filter.mp ((pyval_contains_iff_mem _ _).mp hcon)).2)
      rw [hcids] at hprep
      by_cases hemp : (((idsL.map
          (fun i => (idx.lookupCell nm i r).getD .noneV)).filter
          (fun v => (c.lookup
            (get_query_hash sha1 pyhash ql v)).isSome)).map
          (fun v => (c.lookup
            (get_query_hash sha1 pyhash ql v)).getD .noneV)).isEmpty
      · rw [if_pos hemp] at hprep
        dsimp only at hprep
        injection hprep with hp2
        have h1 := congrArg
          (fun quad : List PyVal × List PyVal × List PyVal × Index => quad.1)
          hp2
        have h2 := congrArg
          (fun quad : List PyVal × List PyVal × List PyVal × Index =>
            quad.2.1) hp2
        have h3 := congrArg
          (fun quad : List PyVal × List PyVal × List PyVal × Index =>
            quad.2.2.1) hp2
        have h4 := congrArg
          (fun quad : List PyVal × List PyVal × List PyVal × Index =>
            quad.2.2.2) hp2
        dsimp only at h1 h2 h3 h4
        subst h1
        subst h2
        subst h3
        subst h4
        refine ⟨?_, rfl, ?_, rfl, ?_⟩
        · by_cases hop : gl.options.isEmpty <;> simp [hop]
        · have hnil : idsL.filter (fun i =>
              (c.lookup (get_query_hash sha1 pyhash ql
                ((idx.lookupCell nm i r).getD .noneV))).isSome) = [] := by
            rw [List.isEmpty_iff] at hemp
            have hfn := List.map_eq_nil_iff.mp hemp
            have hprop : ∀ i ∈ idsL, ¬ ((c.lookup
                (get_query_hash sha1 pyhash ql
                  ((idx.lookupCell nm i r).getD .noneV))).isSome = true) := by
              intro i hi hcon
              have hm : ((idx.lookupCell nm i r).getD .noneV) ∈
                  (idsL.map (fun i =>
                    (idx.lookupCell nm i r).getD .noneV)).filter
                  (fun v => (c.lookup
                    (get_query_hash sha1 pyhash ql v)).isSome) :=
                List.mem_filter.mpr ⟨List.mem_map_of_mem _ hi, hcon⟩
              rw [hfn] at hm
              exact absurd hm (List.not_mem_nil _)
            exact List.filter_eq_nil_iff.mpr hprop
          show (if (idsL.filter (fun i =>
              (c.lookup (get_query_hash sha1 pyhash ql
                ((idx.lookupCell nm i r).getD .noneV))).isSome)).isEmpty
            then some idsL
            else some (((some idsL).getD []).filter (fun i =>
              !((idsL.filter (fun j =>
                (c.lookup (get_query_hash sha1 pyhash ql
                  ((idx.lookupCell nm j r).getD .noneV))).isSome)).contains
                i)))) =
            some (idsL.filter (fun i =>
              !((c.lookup (get_query_hash sha1 pyhash ql
                ((idx.lookupCell nm i r).getD .noneV))).isSome)))
          rw [hnil]
          have hall : idsL.filter (fun i =>
              !((c.lookup (get_query_hash sha1 pyhash ql
                ((idx.lookupCell nm i r).getD .noneV))).isSome)) = idsL := by
            apply List.filter_eq_self.mpr
            intro a ha
            have := List.filter_eq_nil_iff.mp hnil a ha
            simp only [Bool.not_eq_true'] at this ⊢
            simp [this]
          rw [hall]
          simp
        · exact Or.inl ⟨List.isEmpty_iff.mp hemp, rfl⟩
      · rw [if_neg hemp] at hprep
        cases hui : update_index g ⟨some nm, mems⟩
            (idsL.filter (fun i =>
              (c.lookup (get_query_hash sha1 pyhash ql
                ((idx.lookupCell nm i r).getD .noneV))).isSome))
            (((idsL.map (fun i =>
              (idx.lookupCell nm i r).getD .noneV)).filter
              (fun v => (c.lookup
                (get_query_hash sha1 pyhash ql v)).isSome)).map
              (fun v => (c.lookup
                (get_query_hash sha1 pyhash ql v)).getD .noneV)) idx with
        | error e =>
          rw [hui] at hprep
          exact Except.noConfusion hprep
        | ok idxU =>
          rw [hui] at hprep
          dsimp only at hprep
          injection hprep with hp2
          have h1 := congrArg
            (fun quad : List PyVal × List PyVal × List PyVal × Index =>
              quad.1) hp2
          have h2 := congrArg
            (fun quad : List PyVal × List PyVal × List PyVal × Index =>
              quad.2.1) hp2
          have h3 := congrArg
            (fun quad : List PyVal × List PyVal × List PyVal × Index =>
              quad.2.2.1) hp2
          have h4 := congrArg
            (fun quad : List PyVal × List PyVal × List PyVal × Index =>
              quad.2.2.2) hp2
          dsimp only at h1 h2 h3 h4
          subst h1
          subst h2
          subst h3
          subst h4
          refine ⟨?_, rfl, ?_, rfl, Or.inr hui⟩
          · by_cases hop : gl.options.isEmpty <;> simp [hop]
          · show (if (idsL.filter (fun i =>
                (c.lookup (get_query_hash sha1 pyhash ql
                  ((idx.lookupCell nm i r).getD .noneV))).isSome)).isEmpty
              then some idsL
              else some (((some idsL).getD []).filter (fun i =>
                !((idsL.filter (fun j =>
                  (c.lookup (get_query_hash sha1 pyhash ql
                    ((idx.lookupCell nm j r).getD
                      .noneV))).isSome)).contains i)))) =
              some (idsL.filter (fun i =>
                !((c.lookup (get_query_hash sha1 pyhash ql
                  ((idx.lookupCell nm i r).getD .noneV))).isSome)))
            by_cases hcnil : (idsL.filter (fun i =>
                (c.lookup (get_query_hash sha1 pyhash ql
                  ((idx.lookupCell nm i r).getD .noneV))).isSome)).isEmpty
            · rw [if_pos hcnil]
              have hnil := List.isEmpty_iff.mp hcnil
              have hall : idsL.filter (fun i =>
                  !((c.lookup (get_query_hash sha1 pyhash ql
                    ((idx.lookupCell nm i r).getD .noneV))).isSome)) =
                  idsL := by
                apply List.filter_eq_self.mpr
                intro a ha
                have := List.filter_eq_nil_iff.mp hnil a ha
                simp only [Bool.not_eq_true'] at this ⊢
                simp [this]
              rw [hall]
            · rw [if_neg hcnil]
              simp only [Option.getD_some, Option.some.injEq]
              apply List.filter_congr
              intro i hi
              have hceq : ((idsL.filter (fun j =>
                  (c.lookup (get_query_hash sha1 pyhash ql
                    ((idx.lookupCell nm j r).getD
                      .noneV))).isSome)).contains i) =
                  (c.lookup (get_query_hash sha1 pyhash ql
                    ((idx.lookupCell nm i r).getD .noneV))).isSome := by
                by_cases hP : (c.lookup (get_query_hash sha1 pyhash ql
                    ((idx.lookupCell nm i r).getD .noneV))).isSome
                · rw [hP]
                  exact (pyval_contains_iff_mem _ _).mpr
                    (List.mem_filter.mpr ⟨hi, hP⟩)
                · have hP2 : (c.lookup (get_query_hash sha1 pyhash ql
                      ((idx.lookupCell nm i r).getD .noneV))).isSome =
                      false := Bool.eq_false_iff.mpr hP
                  rw [hP2]
                  exact Bool.eq_false_iff.mpr (fun hcon => hP
                    (List.mem_filter.mp
                      ((pyval_contains_iff_mem _ _).mp hcon)).2)
              rw [hceq]


/-- Witness for C8 at a concrete input: one id whose requires-value
misses the (empty) cache — the resolver is submitted with that
requires-value, no id is marked cached, and the callback keeps the full
id list. -/
theorem c8_cached_link_partition_witness :
    ∃ run : ScheduleLinkRun,
      schedule_link (String.intercalate "|") (fun _ => 0)
          ⟨[], ⟨none, []⟩⟩
          ⟨[("u", [(PyVal.int 1, [("r", PyVal.int 5)])])], []⟩
          ⟨some "u", []⟩ ⟨"l", 4, "t", .many, some "r", []⟩
          (.qlink "l" none "l" (.mk false .nil) (some 10))
          (some [PyVal.int 1]) (some []) = .ok run ∧
      run.args.head? = some (.list (.ofList [PyVal.int 5])) ∧
      run.cachedIds = [] ∧
      run.callbackIds = some [PyVal.int 1] := by
  obtain ⟨hargs, hcid, hcb, _, _⟩ := c8_cached_link_partition
    (String.intercalate "|") (fun _ => 0) ⟨[], ⟨none, []⟩⟩
    ⟨[("u", [(PyVal.int 1, [("r", PyVal.int 5)])])], []⟩ "u" []
    ⟨"l", 4, "t", .many, some "r", []⟩
    (.qlink "l" none "l" (.mk false .nil) (some 10)) [PyVal.int 1] [] "r" 10
    { args := [PyVal.list (.ofList [PyVal.int 5])]
      cachedIds := []
      cachedData := []
      indexAfter := ⟨[("u", [(PyVal.int 1, [("r", PyVal.int 5)])])], []⟩
      callbackIds := some [PyVal.int 1]
      registersCacheWrite := true }
    _ _ rfl rfl rfl rfl rfl
  refine ⟨_, rfl, ?_, ?_, ?_⟩
  · exact hargs.trans (by rfl)
  · exact hcid.trans (by rfl)
  · exact hcb.trans (by rfl)

end Hiku
